import Mathlib

/-!
# Go_DApp: the GitHub proxy backend (`app.go`)

A shallow embedding of `app.go` and of the parts of the Go standard library
it calls (`net/http`, `io`, `fmt`, `encoding/json`, `unicode/utf8`), followed
by theorems about the request helper and the seven facade operations.

Conventions of the embedding

* A Go `string` and the contents of a `[]byte` are byte sequences, `Bytes`
  (a list of byte values; every entry of a real input is below 256).  A
  `[]byte` that may be `nil` is an `Option Bytes`.
* A Go function returning `(T, error)` returns a pair whose second component
  is an `Option GoError` (`none` is the nil error).
* The package-level variable `githubResponse` and the list of requests handed
  to `client.Do` form the explicit state `World`.
* The HTTP client, the acceptance test of `http.NewRequest` and the float
  formatter of `encoding/json` are not part of the repository; they are the
  fields of `Runtime`, over which every theorem is universally quantified.
  `client.Do` returns a response or a `*url.Error`; the float formatter is
  only known to write a JSON number literal (`FloatFormat`).
* `json.Marshal` fails on a value it cannot encode (`Value.unsupported`); the
  program discards that error and goes on with nil bytes.
* The encoder and the decoder are tied together by a round trip: the decoder
  reads the encoding of every well-formed value back to that value
  (`roundtrip_value`, `UnmarshalInterface_encodeValue`).
* `encoding/json` is the package of Go 1.22 to 1.24 (the original
  implementation, not the one built on `encoding/json/v2`).
-/

namespace GoDApp

/-- Byte sequence: the contents of a Go `string` or `[]byte`. -/
abbrev Bytes := List Nat

/-! ## unicode/utf8 and unicode/utf16 -/

/-- The rune `utf8.RuneError`, U+FFFD. -/
def RuneError : Nat := 0xFFFD

/-- Go `utf8.AppendRune`: the UTF-8 encoding of a rune; surrogates and values
above U+10FFFF are encoded as U+FFFD. -/
def encodeRune (r : Nat) : Bytes :=
  if r ≤ 0x7F then [r]
  else if r ≤ 0x7FF then [0xC0 + r / 64, 0x80 + r % 64]
  else if 0x10FFFF < r ∨ (0xD800 ≤ r ∧ r ≤ 0xDFFF) then [0xEF, 0xBF, 0xBD]
  else if r ≤ 0xFFFF then [0xE0 + r / 4096, 0x80 + r / 64 % 64, 0x80 + r % 64]
  else [0xF0 + r / 262144, 0x80 + r / 4096 % 64, 0x80 + r / 64 % 64, 0x80 + r % 64]

/-- Go `utf8.DecodeRune`: the first rune of `p` and its width in bytes; an
invalid or truncated encoding gives `(RuneError, 1)`, the empty input
`(RuneError, 0)`. -/
def decodeRune : Bytes → Nat × Nat
  | [] => (RuneError, 0)
  | p0 :: rest =>
    if p0 < 0x80 then (p0, 1)
    else if p0 < 0xC2 ∨ 0xF4 < p0 then (RuneError, 1)
    else
      let lo := if p0 = 0xE0 then 0xA0 else if p0 = 0xF0 then 0x90 else 0x80
      let hi := if p0 = 0xED then 0x9F else if p0 = 0xF4 then 0x8F else 0xBF
      let sz := if p0 < 0xE0 then 2 else if p0 < 0xF0 then 3 else 4
      if rest.length + 1 < sz then (RuneError, 1)
      else
        match rest with
        | [] => (RuneError, 1)
        | b1 :: rest1 =>
          if b1 < lo ∨ hi < b1 then (RuneError, 1)
          else if sz ≤ 2 then (p0 % 32 * 64 + b1 % 64, 2)
          else
            match rest1 with
            | [] => (RuneError, 1)
            | b2 :: rest2 =>
              if b2 < 0x80 ∨ 0xBF < b2 then (RuneError, 1)
              else if sz ≤ 3 then (p0 % 16 * 4096 + b1 % 64 * 64 + b2 % 64, 3)
              else
                match rest2 with
                | [] => (RuneError, 1)
                | b3 :: _ =>
                  if b3 < 0x80 ∨ 0xBF < b3 then (RuneError, 1)
                  else (p0 % 8 * 262144 + b1 % 64 * 4096 + b2 % 64 * 64 + b3 % 64, 4)

/-- Go `utf16.DecodeRune`: the code point of a surrogate pair, U+FFFD when
the pair is not valid. -/
def utf16DecodeRune (r1 r2 : Nat) : Nat :=
  if 0xD800 ≤ r1 ∧ r1 < 0xDC00 ∧ 0xDC00 ≤ r2 ∧ r2 < 0xE000 then
    (r1 - 0xD800) * 1024 + (r2 - 0xDC00) + 0x10000
  else RuneError

/-- The bytes of a text literal (its UTF-8 encoding). -/
def str (s : String) : Bytes := s.data.flatMap (fun c => encodeRune c.toNat)

/-! ## encoding/json: scanner -/

/-- Go `isSpace` of the JSON scanner: space, tab, carriage return, newline. -/
def isSpace (c : Nat) : Bool := c = 32 ∨ c = 9 ∨ c = 13 ∨ c = 10

/-- Drop leading JSON white space. -/
def skipSpace : Bytes → Bytes
  | [] => []
  | c :: rest => if isSpace c then skipSpace rest else c :: rest

/-- Value of a hexadecimal digit, if `c` is one. -/
def hexVal (c : Nat) : Option Nat :=
  if 48 ≤ c ∧ c ≤ 57 then some (c - 48)
  else if 97 ≤ c ∧ c ≤ 102 then some (c - 87)
  else if 65 ≤ c ∧ c ≤ 70 then some (c - 55)
  else none

/-- The single-character escapes the scanner accepts after a backslash:
`b f n r t \ / "`. -/
def isSimpleEscape (c : Nat) : Bool :=
  c = 98 ∨ c = 102 ∨ c = 110 ∨ c = 114 ∨ c = 116 ∨ c = 92 ∨ c = 47 ∨ c = 34

/-- The states of the scanner inside a string literal: Go `stateInString`,
`stateInStringEsc`, and `stateInStringEscU` to `stateInStringEscU123` with
the number of hexadecimal digits seen. -/
inductive StringState where
  | inString
  | inStringEsc
  | inStringEscU (seen : Nat)

/-- Put a scanned byte in front of the raw bytes of a scan result. -/
def consRaw (c : Nat) : Option (Bytes × Bytes) → Option (Bytes × Bytes)
  | some (raw, r) => some (c :: raw, r)
  | none => none

/-- Scan a string literal byte by byte from the given state: the raw bytes
up to the closing quote (escapes still in place) and the input after it;
`none` on a control byte, a bad escape or a missing closing quote. -/
def scanStringFrom : StringState → Bytes → Option (Bytes × Bytes)
  | _, [] => none
  | .inString, c :: rest =>
    if c = 34 then some ([], rest)
    else if c = 92 then consRaw c (scanStringFrom .inStringEsc rest)
    else if c < 32 then none
    else consRaw c (scanStringFrom .inString rest)
  | .inStringEsc, c :: rest =>
    if isSimpleEscape c then consRaw c (scanStringFrom .inString rest)
    else if c = 117 then consRaw c (scanStringFrom (.inStringEscU 0) rest)
    else none
  | .inStringEscU seen, c :: rest =>
    if (hexVal c).isSome then
      consRaw c (scanStringFrom (if seen < 3 then .inStringEscU (seen + 1) else .inString) rest)
    else none

/-- Scan a string literal after its opening quote. -/
def scanString (bs : Bytes) : Option (Bytes × Bytes) := scanStringFrom .inString bs

/-- Whether `c` is an ASCII decimal digit. -/
def isDigit (c : Nat) : Bool := 48 ≤ c ∧ c ≤ 57

/-- Split off the leading run of decimal digits. -/
def spanDigits : Bytes → Bytes × Bytes
  | [] => ([], [])
  | c :: rest =>
    if isDigit c then ((spanDigits rest).1.cons c, (spanDigits rest).2) else ([], c :: rest)

/-- Optional exponent part of a number literal: `e` or `E`, an optional sign,
at least one digit. -/
def scanExp (bs : Bytes) : Option (Bytes × Bytes) :=
  match bs with
  | e :: rest =>
    if e = 101 ∨ e = 69 then
      match rest with
      | s :: rest1 =>
        if s = 43 ∨ s = 45 then
          match spanDigits rest1 with
          | ([], _) => none
          | (ds, r) => some (e :: s :: ds, r)
        else
          match spanDigits rest with
          | ([], _) => none
          | (ds, r) => some (e :: ds, r)
      | [] => none
    else some ([], bs)
  | [] => some ([], bs)

/-- Optional fraction part of a number literal: a dot and at least one digit. -/
def scanFrac (bs : Bytes) : Option (Bytes × Bytes) :=
  match bs with
  | 46 :: rest =>
    match spanDigits rest with
    | ([], _) => none
    | (ds, r) => some (46 :: ds, r)
  | _ => some ([], bs)

/-- Integer part of a number literal: `0`, or a nonzero digit followed by
digits. -/
def scanInt (bs : Bytes) : Option (Bytes × Bytes) :=
  match bs with
  | d :: rest =>
    if d = 48 then some ([48], rest)
    else if isDigit d then some (d :: (spanDigits rest).1, (spanDigits rest).2)
    else none
  | [] => none

/-- Optional minus sign of a number literal. -/
def scanSign : Bytes → Bytes × Bytes
  | [] => ([], [])
  | c :: rest => if c = 45 then ([45], rest) else ([], c :: rest)

/-- Scan a number literal, `-? int frac? exp?`: the literal and the input
after it. -/
def scanNumber (bs : Bytes) : Option (Bytes × Bytes) :=
  match scanInt (scanSign bs).2 with
  | none => none
  | some (ip, r1) =>
    match scanFrac r1 with
    | none => none
    | some (fp, r2) =>
      match scanExp r2 with
      | none => none
      | some (ep, r3) => some ((scanSign bs).1 ++ ip ++ fp ++ ep, r3)

/-- The input after the bytes `lit`, if the input starts with them (the rest
of one of the literals `true`, `false`, `null`). -/
def expectBytes : Bytes → Bytes → Option Bytes
  | [], bs => some bs
  | _ :: _, [] => none
  | l :: lit, c :: bs => if c = l then expectBytes lit bs else none

/-- Syntax tree of a JSON text accepted by the scanner.  Number literals and
string literals are kept as written; they are converted when a value is
decoded. -/
inductive Json where
  | null
  | bool (b : Bool)
  | number (lit : Bytes)
  | string (raw : Bytes)
  | array (elems : List Json)
  | object (members : List (Bytes × Json))

/-- Outcome of a parsing function: a result with the remaining input, a
syntax error, or exhausted fuel. -/
inductive Parsed (α : Type) where
  | ok (a : α) (rest : Bytes)
  | syntaxError
  | outOfFuel

/-- Go `maxNestingDepth`: the scanner rejects deeper nesting of arrays and
objects. -/
def maxNestingDepth : Nat := 10000

mutual
/-- Parse one JSON value starting at the first byte of the input; `depth` is
the number of enclosing arrays and objects. -/
def parseValue : Nat → Nat → Bytes → Parsed Json
  | 0, _, _ => .outOfFuel
  | _ + 1, _, [] => .syntaxError
  | fuel + 1, depth, c :: rest =>
    if c = 123 then
      if maxNestingDepth ≤ depth then .syntaxError
      else
        match skipSpace rest with
        | 125 :: r => .ok (.object []) r
        | r =>
          match parseMembers fuel (depth + 1) r with
          | .ok ms r1 => .ok (.object ms) r1
          | .syntaxError => .syntaxError
          | .outOfFuel => .outOfFuel
    else if c = 91 then
      if maxNestingDepth ≤ depth then .syntaxError
      else
        match skipSpace rest with
        | 93 :: r => .ok (.array []) r
        | r =>
          match parseElems fuel (depth + 1) r with
          | .ok es r1 => .ok (.array es) r1
          | .syntaxError => .syntaxError
          | .outOfFuel => .outOfFuel
    else if c = 34 then
      match scanString rest with
      | some (raw, r) => .ok (.string raw) r
      | none => .syntaxError
    else if c = 116 then
      match expectBytes [114, 117, 101] rest with
      | some r => .ok (.bool true) r
      | none => .syntaxError
    else if c = 102 then
      match expectBytes [97, 108, 115, 101] rest with
      | some r => .ok (.bool false) r
      | none => .syntaxError
    else if c = 110 then
      match expectBytes [117, 108, 108] rest with
      | some r => .ok .null r
      | none => .syntaxError
    else if c = 45 ∨ isDigit c then
      match scanNumber (c :: rest) with
      | some (lit, r) => .ok (.number lit) r
      | none => .syntaxError
    else .syntaxError
/-- Parse the elements of a non-empty array, starting at the first byte of
an element, up to and including the closing bracket. -/
def parseElems : Nat → Nat → Bytes → Parsed (List Json)
  | 0, _, _ => .outOfFuel
  | fuel + 1, depth, bs =>
    match parseValue fuel depth bs with
    | .ok v r =>
      match skipSpace r with
      | 44 :: r1 =>
        match parseElems fuel depth (skipSpace r1) with
        | .ok vs r2 => .ok (v :: vs) r2
        | .syntaxError => .syntaxError
        | .outOfFuel => .outOfFuel
      | 93 :: r1 => .ok [v] r1
      | _ => .syntaxError
    | .syntaxError => .syntaxError
    | .outOfFuel => .outOfFuel
/-- Parse the members of a non-empty object, starting at the opening quote of
a key, up to and including the closing brace. -/
def parseMembers : Nat → Nat → Bytes → Parsed (List (Bytes × Json))
  | 0, _, _ => .outOfFuel
  | _ + 1, _, [] => .syntaxError
  | fuel + 1, depth, q :: rest =>
    if q = 34 then
      match scanString rest with
      | none => .syntaxError
      | some (key, r) =>
        match skipSpace r with
        | 58 :: r1 =>
          match parseValue fuel depth (skipSpace r1) with
          | .ok v r2 =>
            match skipSpace r2 with
            | 44 :: r3 =>
              match parseMembers fuel depth (skipSpace r3) with
              | .ok ms r4 => .ok ((key, v) :: ms) r4
              | .syntaxError => .syntaxError
              | .outOfFuel => .outOfFuel
            | 125 :: r3 => .ok [(key, v)] r3
            | _ => .syntaxError
          | .syntaxError => .syntaxError
          | .outOfFuel => .outOfFuel
        | _ => .syntaxError
    else .syntaxError
end

/-- Parse a complete JSON text: white space, one value, white space, end of
input.  The fuel `2 * length + 1` is never exhausted (`parse_fuel`), so
`none` is exactly Go's `*json.SyntaxError` of `checkValid`. -/
def parse (data : Bytes) : Option Json :=
  match parseValue (2 * data.length + 1) 0 (skipSpace data) with
  | .ok j r => match skipSpace r with
    | [] => some j
    | _ :: _ => none
  | .syntaxError => none
  | .outOfFuel => none

/-! ## encoding/json: strings and numbers -/

/-- Go `getu4`: the code unit of an escape `\uXXXX` at the head of `s`, if
`s` starts with one. -/
def getu4 : Bytes → Option Nat
  | 92 :: 117 :: h1 :: h2 :: h3 :: h4 :: _ =>
    match hexVal h1, hexVal h2, hexVal h3, hexVal h4 with
    | some a, some b, some c, some d => some (a * 4096 + b * 256 + c * 16 + d)
    | _, _, _, _ => none
  | _ => none

/-- The byte a single-character escape stands for. -/
def unescape (e : Nat) : Nat :=
  if e = 98 then 8
  else if e = 102 then 12
  else if e = 110 then 10
  else if e = 114 then 13
  else if e = 116 then 9
  else e

/-- Go `unquoteBytes` on the raw content of a scanned string literal.  The
first argument counts input bytes that belong to an item already decoded and
are passed over.  Escapes are replaced by what they stand for, a surrogate
pair of `\u` escapes by its code point, an unpaired surrogate and every
byte that is not part of a valid UTF-8 sequence by U+FFFD. -/
def unquoteFrom : Nat → Bytes → Bytes
  | _, [] => []
  | skip + 1, _ :: rest => unquoteFrom skip rest
  | 0, c :: rest =>
    if c = 92 then
      match rest with
      | [] => []
      | e :: _ =>
        if e = 117 then
          match getu4 (c :: rest) with
          | none => []
          | some rr =>
            if 0xD800 ≤ rr ∧ rr < 0xE000 then
              let dec := utf16DecodeRune rr ((getu4 (rest.drop 5)).getD 0)
              if dec ≠ RuneError then encodeRune dec ++ unquoteFrom 11 rest
              else encodeRune RuneError ++ unquoteFrom 5 rest
            else encodeRune rr ++ unquoteFrom 5 rest
        else unescape e :: unquoteFrom 1 rest
    else if c < 0x80 then c :: unquoteFrom 0 rest
    else encodeRune (decodeRune (c :: rest)).1 ++ unquoteFrom ((decodeRune (c :: rest)).2 - 1) rest

/-- Go `unquote`: the string a scanned string literal denotes. -/
def unquote (raw : Bytes) : Bytes := unquoteFrom 0 raw

/-- A finite IEEE 754 binary64 value `(-1)^neg * mant * 2^exp`, in the unique
form with `2^52 ≤ mant < 2^53` and `-1074 ≤ exp ≤ 971` (normal), or
`mant < 2^52` and `exp = -1074` (zero and subnormal). -/
structure Float64 where
  neg : Bool
  mant : Nat
  exp : Int
deriving DecidableEq, Repr

/-- Number of binary digits of `n` added to `acc`, by halving at most `fuel`
times. -/
def bitLenAux : Nat → Nat → Nat → Nat
  | 0, _, acc => acc
  | fuel + 1, n, acc => if n = 0 then acc else bitLenAux fuel (n / 2) (acc + 1)

/-- Number of binary digits of `n` (0 for 0); `n` halvings always suffice. -/
def bitLen (n : Nat) : Nat := bitLenAux n n 0

/-- The quotient `n / d` rounded to the nearest integer, ties to even. -/
def roundHalfEven (n d : Nat) : Nat :=
  if 2 * (n % d) < d then n / d
  else if d < 2 * (n % d) then n / d + 1
  else if n / d % 2 = 0 then n / d
  else n / d + 1

/-- The positive rational `n / d` rounded to the nearest binary64 (ties to
even); `none` when the rounded value is not finite. -/
def roundFloat64 (neg : Bool) (n d : Nat) : Option Float64 :=
  if n = 0 then some ⟨neg, 0, -1074⟩
  else
    let l : Int := (bitLen n : Int) - (bitLen d : Int)
    let ge : Bool := if 0 ≤ l then d * 2 ^ l.toNat ≤ n else d ≤ n * 2 ^ (-l).toNat
    let fl : Int := if ge then l else l - 1
    let e2 : Int := max (fl - 52) (-1074)
    let m : Nat :=
      if 0 ≤ e2 then roundHalfEven n (d * 2 ^ e2.toNat) else roundHalfEven (n * 2 ^ (-e2).toNat) d
    let m1 : Nat := if m = 2 ^ 53 then 2 ^ 52 else m
    let e3 : Int := if m = 2 ^ 53 then e2 + 1 else e2
    if 971 < e3 then none else some ⟨neg, m1, e3⟩

/-- Read a run of decimal digits as a number, continuing from `acc`. -/
def readDigits : Nat → Bytes → Nat
  | acc, [] => acc
  | acc, c :: rest => readDigits (acc * 10 + (c - 48)) rest

/-- Read the digits of an exponent the way `strconv` does: digits are taken
into account only while the value read so far is below 10000. -/
def readExp : Nat → Bytes → Nat
  | e, [] => e
  | e, c :: rest => readExp (if e < 10000 then e * 10 + (c - 48) else e) rest

/-- Go `convertNumber` without `UseNumber`: `strconv.ParseFloat(s, 64)` on a
scanned number literal; `none` is the range error of a literal too large for
a float64. -/
def convertNumber (lit : Bytes) : Option Float64 :=
  let neg : Bool := lit.head? = some 45
  let body : Bytes := if neg then lit.tail else lit
  let ip := (spanDigits body).1
  let afterInt := (spanDigits body).2
  let fp : Bytes := if afterInt.head? = some 46 then (spanDigits afterInt.tail).1 else []
  let afterFrac : Bytes := if afterInt.head? = some 46 then (spanDigits afterInt.tail).2 else afterInt
  let expNeg : Bool := afterFrac.tail.head? = some 45
  let expDigits : Bytes :=
    if afterFrac.tail.head? = some 45 ∨ afterFrac.tail.head? = some 43 then afterFrac.tail.tail
    else afterFrac.tail
  let e : Nat := readExp 0 expDigits
  let digits : Nat := readDigits 0 (ip ++ fp)
  -- value = digits * 10 ^ (±e - fp.length)
  if expNeg then roundFloat64 neg digits (10 ^ (e + fp.length))
  else if fp.length ≤ e then roundFloat64 neg (digits * 10 ^ (e - fp.length)) 1
  else roundFloat64 neg digits (10 ^ (fp.length - e))

/-! ## encoding/json: decoding into `interface{}` and into `[]interface{}` -/

/-- A Go value of type `interface{}`.  The first six forms are the values
`encoding/json` produces: `nil`, `bool`, `float64`, `string`,
`[]interface{}` (non-nil) and `map[string]interface{}` (an association list
ordered by key).  `unsupported` is a value `json.Marshal` rejects: a channel,
a function, a complex number, a NaN or an infinite float. -/
inductive Value where
  | null
  | bool (b : Bool)
  | number (f : Float64)
  | string (s : Bytes)
  | array (xs : List Value)
  | object (kvs : List (Bytes × Value))
  | unsupported

/-- Byte-wise lexicographic order on strings, Go `a < b`. -/
def bytesLt : Bytes → Bytes → Bool
  | [], [] => false
  | [], _ :: _ => true
  | _ :: _, [] => false
  | x :: xs, y :: ys => if x < y then true else if y < x then false else bytesLt xs ys

/-- Map assignment `m[k] = v` on an association list ordered by key: an
existing entry for `k` is replaced. -/
def mapSet {α : Type} : List (Bytes × α) → Bytes → α → List (Bytes × α)
  | [], k, v => [(k, v)]
  | (k1, v1) :: rest, k, v =>
    if k = k1 then (k, v) :: rest
    else if bytesLt k k1 then (k, v) :: (k1, v1) :: rest
    else (k1, v1) :: mapSet rest k v

mutual
/-- Go `valueInterface`: the `interface{}` value of a JSON value.  A number
literal out of the float64 range gives `nil` (the error is saved). -/
def valueInterface : Json → Value
  | .null => .null
  | .bool b => .bool b
  | .number lit =>
    match convertNumber lit with
    | some f => .number f
    | none => .null
  | .string raw => .string (unquote raw)
  | .array es => .array (arrayInterface es)
  | .object ms => .object (objectInterface ms [])
/-- Go `arrayInterface`: the elements of an array, in order. -/
def arrayInterface : List Json → List Value
  | [] => []
  | j :: js => valueInterface j :: arrayInterface js
/-- Go `objectInterface`: the members are assigned to the map one after the
other, so a repeated key keeps its last value. -/
def objectInterface : List (Bytes × Json) → List (Bytes × Value) → List (Bytes × Value)
  | [], m => m
  | (k, j) :: ms, m => objectInterface ms (mapSet m (unquote k) (valueInterface j))
end

mutual
/-- Whether decoding saves a range error: some number literal of the value
does not fit a float64. -/
def rangeError : Json → Bool
  | .null => false
  | .bool _ => false
  | .number lit => (convertNumber lit).isNone
  | .string _ => false
  | .array es => rangeErrorElems es
  | .object ms => rangeErrorMembers ms
/-- Range error in one of the elements. -/
def rangeErrorElems : List Json → Bool
  | [] => false
  | j :: js => rangeError j || rangeErrorElems js
/-- Range error in one of the member values. -/
def rangeErrorMembers : List (Bytes × Json) → Bool
  | [] => false
  | (_, j) :: ms => rangeError j || rangeErrorMembers ms
end

/-- The errors `json.Unmarshal` reports. -/
inductive JsonError where
  | SyntaxError
  | UnmarshalTypeError
deriving DecidableEq, Repr

/-- Go `d.value(v)` for a destination `v` of type `interface{}` holding `old`:
arrays, objects, strings, booleans and null replace the destination; a number
replaces it when it converts, and leaves it as it is when the literal is out
of range (`literalStore` saves the error and stores nothing). -/
def storeValue (j : Json) (old : Value) : Value :=
  match j with
  | .number lit =>
    match convertNumber lit with
    | some f => .number f
    | none => old
  | j => valueInterface j

/-- Go type `APIResponse []interface{}`: `nil`, or a slice with its visible
elements and `spare`, the slots of its backing array past the length.  Slots
past `spare` are nil, whether they lie within the capacity or are allocated
when the slice grows. -/
inductive APIResponse where
  | nil
  | slice (elems : List Value) (spare : List Value)

/-- The slots of the backing array from index 0 on. -/
def APIResponse.backing : APIResponse → List Value
  | .nil => []
  | .slice es sp => es ++ sp

/-- The element loop of Go `d.array` on a slice of `interface{}`; `backing`
holds the slots from the current index on.  The slot of each element is the
existing one (an old element, or a spare slot made visible by `SetLen`) or a
fresh nil slot after `Grow`, and the element is decoded into it.  The result
is the decoded slots and the slots left past the new length. -/
def arrayStore : List Json → List Value → List Value × List Value
  | [], backing => ([], backing)
  | j :: js, backing =>
    ((arrayStore js backing.tail).1.cons (storeValue j (backing.headD .null)),
      (arrayStore js backing.tail).2)

/-- Go `json.Unmarshal(data, &v)` for `v` of type `APIResponse`: the new value
of `v` and the error.  A syntax error is found by `checkValid` before anything
is stored.  An array is decoded element by element into the slice (an empty
array gives a fresh empty slice), `null` sets the slice to nil, and an object,
string, number or boolean is a type error that stores nothing. -/
def UnmarshalSlice (data : Bytes) (v : APIResponse) : APIResponse × Option JsonError :=
  match parse data with
  | none => (v, some .SyntaxError)
  | some (.array []) => (.slice [] [], none)
  | some (.array (j :: js)) =>
    (.slice (arrayStore (j :: js) v.backing).1 (arrayStore (j :: js) v.backing).2,
      if rangeErrorElems (j :: js) then some .UnmarshalTypeError else none)
  | some .null => (.nil, none)
  | some _ => (v, some .UnmarshalTypeError)

/-- Go `json.Unmarshal(data, &v)` for `v` of type `interface{}`, `v` holding
no pointer: the new value of `v` and the error. -/
def UnmarshalInterface (data : Bytes) (v : Value) : Value × Option JsonError :=
  match parse data with
  | none => (v, some .SyntaxError)
  | some j => (storeValue j v, if rangeError j then some .UnmarshalTypeError else none)

/-! ## encoding/json: encoding -/

/-- Lower-case hexadecimal digit of `n < 16`. -/
def hexDigit (n : Nat) : Nat := if n < 10 then 48 + n else 87 + n

/-- Go `htmlSafeSet`: the ASCII bytes a string is written with unescaped;
all from the space on except `"`, `&`, `<`, `>` and the backslash. -/
def htmlSafe (b : Nat) : Bool := 32 ≤ b ∧ b ≠ 34 ∧ b ≠ 38 ∧ b ≠ 60 ∧ b ≠ 62 ∧ b ≠ 92

/-- The escape Go `appendString` writes for an ASCII byte outside
`htmlSafeSet`. -/
def escapeByte (b : Nat) : Bytes :=
  if b = 92 ∨ b = 34 then [92, b]
  else if b = 8 then [92, 98]
  else if b = 12 then [92, 102]
  else if b = 10 then [92, 110]
  else if b = 13 then [92, 114]
  else if b = 9 then [92, 116]
  else [92, 117, 48, 48, hexDigit (b / 16), hexDigit (b % 16)]

/-- The body of Go `appendString` with HTML escaping.  `skip` counts the
remaining bytes of a multi-byte rune already handled; they are copied when
`keep` is set and dropped otherwise.  A byte that is not part of a valid
UTF-8 sequence is written as the escape of U+FFFD, and U+2028 and U+2029
are written as `\u` escapes. -/
def appendStringFrom : Nat → Bool → Bytes → Bytes
  | _, _, [] => []
  | skip + 1, keep, c :: rest =>
    if keep then c :: appendStringFrom skip keep rest else appendStringFrom skip keep rest
  | 0, _, c :: rest =>
    if c < 0x80 then
      if htmlSafe c then c :: appendStringFrom 0 true rest
      else escapeByte c ++ appendStringFrom 0 true rest
    else if (decodeRune (c :: rest)).1 = RuneError ∧ (decodeRune (c :: rest)).2 = 1 then
      [92, 117, 102, 102, 102, 100] ++ appendStringFrom 0 true rest
    else if (decodeRune (c :: rest)).1 = 0x2028 ∨ (decodeRune (c :: rest)).1 = 0x2029 then
      [92, 117, 50, 48, 50, hexDigit ((decodeRune (c :: rest)).1 % 16)]
        ++ appendStringFrom ((decodeRune (c :: rest)).2 - 1) false rest
    else c :: appendStringFrom ((decodeRune (c :: rest)).2 - 1) true rest

/-- Go `appendString(dst, src, true)`: a string as a quoted JSON string. -/
def encodeString (s : Bytes) : Bytes := [34] ++ appendStringFrom 0 true s ++ [34]

/-- Entries written one after the other, separated by commas. -/
def joinComma : List Bytes → Bytes
  | [] => []
  | [x] => x
  | x :: y :: rest => x ++ [44] ++ joinComma (y :: rest)

/-- The members of an object, each `"key":value`, in the given order. -/
def encodeFields (fields : List (Bytes × Bytes)) : Bytes :=
  [123] ++ joinComma (fields.map (fun kv => encodeString kv.1 ++ [58] ++ kv.2)) ++ [125]

/-- The entries of a map ordered by key, as the map encoder writes them. -/
def sortedByKey {α : Type} (kvs : List (Bytes × α)) : List (Bytes × α) :=
  kvs.foldl (fun m kv => mapSet m kv.1 kv.2) []

mutual
/-- The JSON encoding of an `interface{}` value by `json.Marshal`, for a
value it accepts (`encodable`); `formatFloat` is the encoder for `float64`. -/
def encodeValue (formatFloat : Float64 → Bytes) : Value → Bytes
  | .null => [110, 117, 108, 108]
  | .bool true => [116, 114, 117, 101]
  | .bool false => [102, 97, 108, 115, 101]
  | .number f => formatFloat f
  | .string s => encodeString s
  | .array xs => [91] ++ joinComma (encodeElems formatFloat xs) ++ [93]
  | .object kvs => encodeFields (sortedByKey (encodeMembers formatFloat kvs))
  | .unsupported => []
/-- The encodings of the elements of a slice. -/
def encodeElems (formatFloat : Float64 → Bytes) : List Value → List Bytes
  | [] => []
  | x :: xs => encodeValue formatFloat x :: encodeElems formatFloat xs
/-- The keys of a map with the encodings of their values. -/
def encodeMembers (formatFloat : Float64 → Bytes) : List (Bytes × Value) → List (Bytes × Bytes)
  | [] => []
  | (k, x) :: kvs => (k, encodeValue formatFloat x) :: encodeMembers formatFloat kvs
end

mutual
/-- Whether `json.Marshal` accepts the value: no part of it is
`unsupported`. -/
def encodable : Value → Bool
  | .null => true
  | .bool _ => true
  | .number _ => true
  | .string _ => true
  | .array xs => encodableElems xs
  | .object kvs => encodableMembers kvs
  | .unsupported => false
/-- Whether `json.Marshal` accepts every element. -/
def encodableElems : List Value → Bool
  | [] => true
  | x :: xs => encodable x && encodableElems xs
/-- Whether `json.Marshal` accepts every member value. -/
def encodableMembers : List (Bytes × Value) → Bool
  | [] => true
  | (_, x) :: kvs => encodable x && encodableMembers kvs
end

/-- What may follow a number literal where the encoder writes one: the end of
the text, a comma, a closing bracket or a closing brace. -/
def delimited : Bytes → Bool
  | [] => true
  | c :: _ => c = 44 ∨ c = 93 ∨ c = 125

/-- The `float64` encoder of `encoding/json`, left abstract, together with
what holds of it whatever digits it chooses: it writes a JSON number literal,
which the scanner reads as one number up to the delimiter that follows. -/
structure FloatFormat where
  format : Float64 → Bytes
  literal : ∀ (f : Float64) (rest : Bytes), delimited rest = true →
    scanNumber (format f ++ rest) = some (format f, rest)

/-! ## fmt, io, net/http -/

/-- A Go `error` value: an error of the transport or of a reader, the
`*fmt.wrapError` that `fmt.Errorf` builds for the verb `%w`, or the
`*url.Error` in which `client.Do` returns every error (`quotedURL` is its
field `URL` as the verb `%q` prints it, between double quotes). -/
inductive GoError where
  | errorString (msg : Bytes)
  | wrapError (msg : Bytes) (err : GoError)
  | urlError (Op quotedURL : Bytes) (Err : GoError)
deriving DecidableEq, Repr

/-- The method `Error()`: the message of the error; for a `*url.Error` it is
`fmt.Sprintf("%s %q: %s", e.Op, e.URL, e.Err)`. -/
def GoError.Error : GoError → Bytes
  | .errorString msg => msg
  | .wrapError msg _ => msg
  | .urlError op quotedURL err => op ++ [32] ++ quotedURL ++ [58, 32] ++ err.Error

/-- The method `Unwrap()`: the error a `*fmt.wrapError` or a `*url.Error`
wraps. -/
def GoError.Unwrap : GoError → Option GoError
  | .errorString _ => none
  | .wrapError _ err => some err
  | .urlError _ _ err => some err

/-- Go `errors.Is(err, target)`: `target` is `err` or one of the errors
reached from it by `Unwrap`. -/
def GoError.Is : GoError → GoError → Bool
  | .errorString msg, target => decide (GoError.errorString msg = target)
  | .wrapError msg err, target =>
    decide (GoError.wrapError msg err = target) || GoError.Is err target
  | .urlError op quotedURL err, target =>
    decide (GoError.urlError op quotedURL err = target) || GoError.Is err target

/-- The `*url.Error` of `client.Do`: the operation (`Get`, `Post`), the URL
as the verb `%q` prints it, and the error of the transport. -/
structure URLError where
  Op : Bytes
  QuotedURL : Bytes
  Err : GoError
deriving DecidableEq, Repr

/-- The `*url.Error` as a value of type `error`. -/
def URLError.toError (e : URLError) : GoError := .urlError e.Op e.QuotedURL e.Err

/-- Lower case of an ASCII letter. -/
def toLowerASCII (c : Nat) : Nat := if 65 ≤ c ∧ c ≤ 90 then c + 32 else c

/-- Go `urlErrorOp`: the method with its first letter kept and the others in
lower case, `Get` for the empty method. -/
def urlErrorOp : Bytes → Bytes
  | [] => [71, 101, 116]
  | c :: rest => c :: rest.map toLowerASCII

/-- Go `fmt.Sprintf(format, arg)` for a format with the verb `%s` and a string
argument: the format with its first `%s` replaced by the argument. -/
def Sprintf : Bytes → Bytes → Bytes
  | [], _ => []
  | [c], _ => [c]
  | c :: d :: rest, arg =>
    if c = 37 ∧ d = 115 then arg ++ rest else c :: Sprintf (d :: rest) arg

/-- The message of `fmt.Errorf(format, err)`: the format with its first `%w`
replaced by `err.Error()`. -/
def errorfMessage : Bytes → Bytes → Bytes
  | [], _ => []
  | [c], _ => [c]
  | c :: d :: rest, arg =>
    if c = 37 ∧ d = 119 then arg ++ rest else c :: errorfMessage (d :: rest) arg

/-- Go `fmt.Errorf(format, err)` for a format with the verb `%w`: an error
with the formatted message that wraps `err`. -/
def Errorf (format : Bytes) (err : GoError) : GoError :=
  .wrapError (errorfMessage format err.Error) err

/-- A `*http.Request` as far as the program sets it: method, URL, header map
(keys with their value lists, in the order of insertion) and body. -/
structure Request where
  Method : Bytes
  URL : Bytes
  Header : List (Bytes × List Bytes)
  Body : Option Bytes
deriving DecidableEq, Repr

/-- Go `Header.Set(key, value)` for a key in canonical form (`Accept` and
`Authorization` are): the entry of the key becomes the single value. -/
def HeaderSet : List (Bytes × List Bytes) → Bytes → Bytes → List (Bytes × List Bytes)
  | [], key, value => [(key, [value])]
  | (k, vs) :: rest, key, value =>
    if k = key then (key, [value]) :: rest else (k, vs) :: HeaderSet rest key value

/-- The stream `response.Body`: the bytes it delivers, and the error that
ends it if it does not end with `io.EOF`. -/
structure Reader where
  data : Bytes
  err : Option GoError
deriving DecidableEq, Repr

/-- A `*http.Response` as far as the program can see it. -/
structure Response where
  StatusCode : Nat
  Body : Reader
deriving DecidableEq, Repr

/-- Go `io.ReadAll`: the bytes read until the stream ended, and the error
that ended it (nil after `io.EOF`). -/
def ReadAll (r : Reader) : Option Bytes × Option GoError := (some r.data, r.err)

/-- The standard library behaviour the program depends on.
`accepts method url`: whether `http.NewRequest` returns a request (it returns
an error for a method or URL it cannot parse).  `Do history request`: the
result of `client.Do`, a response or a `*url.Error` around the error of the
transport; it may depend on the requests sent before.
`formatFloat`: the `float64` encoder of `encoding/json`. -/
structure Runtime where
  accepts : Bytes → Bytes → Bool
  Do : List Request → Request → Except URLError Response
  formatFloat : FloatFormat

/-- Go `http.NewRequest(method, url, body)`: the request, with an empty
header map and the method `GET` for an empty method, or nil (`none`) when it
returns an error. -/
def NewRequest (rt : Runtime) (method url : Bytes) (body : Option Bytes) : Option Request :=
  if rt.accepts method url then
    some { Method := if method = [] then str "GET" else method, URL := url, Header := [], Body := body }
  else none

/-! ## app.go -/

/-- The state of the program: the package-level variable `githubResponse`,
and the requests handed to `client.Do` so far, oldest first. -/
structure World where
  githubResponse : APIResponse
  sent : List Request

/-- The state at program start: `githubResponse` has its zero value. -/
def World.init : World := { githubResponse := .nil, sent := [] }

/-- How a call ends: with a run-time panic (a nil pointer dereference), or by
returning. -/
inductive Result (α : Type) where
  | panic
  | returned (val : α)

/-- The bytes of a slice; a nil slice has none. -/
def bytesOf (b : Option Bytes) : Bytes := b.getD []

/-- Go `makeRequest` (app.go 12-36). -/
def makeRequest (rt : Runtime) (requestType url token : Bytes) (payload : Option Bytes) (w : World) :
    Result (Option Bytes × Option GoError) × World :=
  let request : Option Request :=
    match payload with
    | some p => NewRequest rt requestType url (some p)
    | none => NewRequest rt requestType url none
  match request with
  | none => (.panic, w)
  | some request =>
    let request : Request :=
      { request with Header := HeaderSet request.Header (str "Accept") (str "application/vnd.github+json") }
    let request : Request :=
      if token ≠ str "" then
        { request with Header := HeaderSet request.Header (str "Authorization") (Sprintf (str "Bearer %s") token) }
      else request
    match rt.Do w.sent request with
    | .error err =>
      (.returned (none, some (Errorf (str "request failed: %w") err.toError)),
        { w with sent := w.sent ++ [request] })
    | .ok response =>
      (.returned ((ReadAll response.Body).1, none), { w with sent := w.sent ++ [request] })

/-- Go `MakeGetRequest` (app.go 38-40). -/
def MakeGetRequest (rt : Runtime) (url token : Bytes) (w : World) :
    Result (Option Bytes × Option GoError) × World :=
  makeRequest rt (str "GET") url token none w

/-- Go `MakePostRequest` (app.go 42-44). -/
def MakePostRequest (rt : Runtime) (url token : Bytes) (payload : Option Bytes) (w : World) :
    Result (Option Bytes × Option GoError) × World :=
  makeRequest rt (str "POST") url token payload w

/-- Go `type Gist struct` (app.go 68-72); `Files` is the `interface{}` value
the caller supplies. -/
structure Gist where
  Description : Bytes
  Public : Bool
  Files : Value

/-- Go `const BaseUrl` (app.go 74). -/
def BaseUrl : Bytes := str "https://api.github.com"

/-- Go `json.Marshal(gist)`: the fields in declaration order under the names
of their `json` tags; when `Files` holds a value the encoder rejects, nil
bytes and an error (an `*json.UnsupportedTypeError` or
`*json.UnsupportedValueError`, of which only the presence is modelled). -/
def Marshal (formatFloat : Float64 → Bytes) (gist : Gist) : Option Bytes × Option GoError :=
  if encodable gist.Files then
    (some (encodeFields
      [(str "description", encodeString gist.Description),
       (str "public", if gist.Public then str "true" else str "false"),
       (str "files", encodeValue formatFloat gist.Files)]), none)
  else (none, some (.errorString (str "json: unsupported type")))

/-- Go `(*App).GetPublicRepositories` (app.go 78-88). -/
def GetPublicRepositories (rt : Runtime) (w : World) : Result (APIResponse × Option GoError) × World :=
  let url := Sprintf (str "%s/repositories") BaseUrl
  match MakeGetRequest rt url (str "") w with
  | (.panic, w1) => (.panic, w1)
  | (.returned (_, some err), w1) => (.returned (.nil, some err), w1)
  | (.returned (response, none), w1) =>
    let w2 : World :=
      { w1 with githubResponse := (UnmarshalSlice (bytesOf response) w1.githubResponse).1 }
    (.returned (w2.githubResponse, none), w2)

/-- Go `(*App).GetPublicGists` (app.go 90-100). -/
def GetPublicGists (rt : Runtime) (w : World) : Result (APIResponse × Option GoError) × World :=
  let url := Sprintf (str "%s/gists/public") BaseUrl
  match MakeGetRequest rt url (str "") w with
  | (.panic, w1) => (.panic, w1)
  | (.returned (_, some err), w1) => (.returned (.nil, some err), w1)
  | (.returned (response, none), w1) =>
    let w2 : World :=
      { w1 with githubResponse := (UnmarshalSlice (bytesOf response) w1.githubResponse).1 }
    (.returned (w2.githubResponse, none), w2)

/-- Go `(*App).GetRepositoriesForAuthenticatedUser` (app.go 102-112). -/
def GetRepositoriesForAuthenticatedUser (rt : Runtime) (token : Bytes) (w : World) :
    Result (APIResponse × Option GoError) × World :=
  let url := Sprintf (str "%s/user/repos?type=private") BaseUrl
  match MakeGetRequest rt url token w with
  | (.panic, w1) => (.panic, w1)
  | (.returned (_, some err), w1) => (.returned (.nil, some err), w1)
  | (.returned (response, none), w1) =>
    let w2 : World :=
      { w1 with githubResponse := (UnmarshalSlice (bytesOf response) w1.githubResponse).1 }
    (.returned (w2.githubResponse, none), w2)

/-- Go `(*App).GetGistsForAuthenticatedUser` (app.go 114-124). -/
def GetGistsForAuthenticatedUser (rt : Runtime) (token : Bytes) (w : World) :
    Result (APIResponse × Option GoError) × World :=
  let url := Sprintf (str "%s/gists") BaseUrl
  match MakeGetRequest rt url token w with
  | (.panic, w1) => (.panic, w1)
  | (.returned (_, some err), w1) => (.returned (.nil, some err), w1)
  | (.returned (response, none), w1) =>
    let w2 : World :=
      { w1 with githubResponse := (UnmarshalSlice (bytesOf response) w1.githubResponse).1 }
    (.returned (w2.githubResponse, none), w2)

/-- Go `(*App).GetMoreInformationFromURL` (app.go 126-135). -/
def GetMoreInformationFromURL (rt : Runtime) (url token : Bytes) (w : World) :
    Result (APIResponse × Option GoError) × World :=
  match MakeGetRequest rt url token w with
  | (.panic, w1) => (.panic, w1)
  | (.returned (_, some err), w1) => (.returned (.nil, some err), w1)
  | (.returned (response, none), w1) =>
    let w2 : World :=
      { w1 with githubResponse := (UnmarshalSlice (bytesOf response) w1.githubResponse).1 }
    (.returned (w2.githubResponse, none), w2)

/-- Go `(*App).GetGistContent` (app.go 137-145); its `githubResponse` is a
local variable, and `string(githubResponse)` keeps the bytes as they are. -/
def GetGistContent (rt : Runtime) (url token : Bytes) (w : World) :
    Result (Bytes × Option GoError) × World :=
  match MakeGetRequest rt url token w with
  | (.panic, w1) => (.panic, w1)
  | (.returned (_, some err), w1) => (.returned (str "", some err), w1)
  | (.returned (githubResponse, none), w1) => (.returned (bytesOf githubResponse, none), w1)

/-- Go `(*App).CreateNewGist` (app.go 147-159); its `githubResponse` is a
local variable of type `interface{}`, nil before the decoding. -/
def CreateNewGist (rt : Runtime) (gist : Gist) (token : Bytes) (w : World) :
    Result (Value × Option GoError) × World :=
  let githubResponse : Value := .null
  let requestBody := (Marshal rt.formatFloat.format gist).1
  let url := Sprintf (str "%s/gists") BaseUrl
  match MakePostRequest rt url token requestBody w with
  | (.panic, w1) => (.panic, w1)
  | (.returned (_, some err), w1) => (.returned (.null, some err), w1)
  | (.returned (response, none), w1) =>
    (.returned ((UnmarshalInterface (bytesOf response) githubResponse).1, none), w1)

/-! ## Definitions used in the statements -/

/-- The request `makeRequest` builds once `http.NewRequest` has accepted the
method and the URL. -/
def builtRequest (requestType url token : Bytes) (payload : Option Bytes) : Request :=
  { Method := if requestType = [] then str "GET" else requestType
    URL := url
    Header := (str "Accept", [str "application/vnd.github+json"]) ::
      (if token = str "" then [] else [(str "Authorization", [str "Bearer " ++ token])])
    Body := payload }

/-- A stand-in for the `float64` encoder: `1` for the float64 one and `0` for
every other number. -/
def stubFormat : FloatFormat :=
  { format := fun f => if f = { neg := false, mant := 2 ^ 52, exp := -52 } then [49] else [48]
    literal := by
      intro f rest h
      by_cases hf : f = { neg := false, mant := 2 ^ 52, exp := -52 }
      · simp only [hf, if_true]
        cases rest with
        | nil => rfl
        | cons c t =>
          simp only [delimited, Bool.decide_or, Bool.or_eq_true, decide_eq_true_eq] at h
          rcases h with h | h | h <;> subst h <;> rfl
      · simp only [hf, if_false]
        cases rest with
        | nil => rfl
        | cons c t =>
          simp only [delimited, Bool.decide_or, Bool.or_eq_true, decide_eq_true_eq] at h
          rcases h with h | h | h <;> subst h <;> rfl }

/-- A runtime that accepts every request and answers each with the given
status code and body. -/
def replyWith (status : Nat) (body : Bytes) : Runtime :=
  { accepts := fun _ _ => true
    Do := fun _ _ => .ok { StatusCode := status, Body := { data := body, err := none } }
    formatFloat := stubFormat }

/-- A runtime that accepts every request and whose transport fails each with
the error `e`: `client.Do` returns the `*url.Error` with the operation of the
method, the URL in double quotes (as `%q` prints a URL of printable ASCII
characters without quote or backslash) and `e`. -/
def failWith (e : GoError) : Runtime :=
  { accepts := fun _ _ => true
    Do := fun _ request =>
      .error { Op := urlErrorOp request.Method, QuotedURL := [34] ++ request.URL ++ [34], Err := e }
    formatFloat := stubFormat }

/-- A runtime whose client answers the request for the public repositories
with `repositories` and every other request with `other`, both with status
200. -/
def replyByURL (repositories other : Bytes) : Runtime :=
  { accepts := fun _ _ => true
    Do := fun _ request =>
      if request.URL = str "https://api.github.com/repositories" then
        .ok { StatusCode := 200, Body := { data := repositories, err := none } }
      else .ok { StatusCode := 200, Body := { data := other, err := none } }
    formatFloat := stubFormat }

/-- A connection error of the transport. -/
def connectionRefused : GoError :=
  .errorString (str "dial tcp 140.82.112.5:443: connect: connection refused")

/-- The gist of the example: description `d`, public, one file `a.txt` with
content `x`. -/
def exampleGist : Gist :=
  { Description := str "d"
    Public := true
    Files := .object [(str "a.txt", .object [(str "content", .string (str "x"))])] }

/-- The float64 value 1, the conversion of the literal `1`. -/
def Float64.one : Float64 := { neg := false, mant := 2 ^ 52, exp := -52 }

/-- The rational number a float64 stands for. -/
def Float64.toRat (f : Float64) : ℚ := (if f.neg then -1 else 1) * f.mant * 2 ^ f.exp

/-! ## Values the decoder reads back from their encoding -/

/-- Go `utf8.Valid`, by way of `utf8.DecodeRune`: a byte from 0x80 on that
decodes with size 1 is an invalid sequence; `skip` counts the remaining bytes
of a rune already checked. -/
def validUTF8From : Nat → Bytes → Bool
  | _, [] => true
  | skip + 1, _ :: rest => validUTF8From skip rest
  | 0, c :: rest =>
    if c < 0x80 then validUTF8From 0 rest
    else if (decodeRune (c :: rest)).2 = 1 then false
    else validUTF8From ((decodeRune (c :: rest)).2 - 1) rest

/-- Go `utf8.Valid`: whether the string is valid UTF-8. -/
def validUTF8 (s : Bytes) : Bool := validUTF8From 0 s

/-- Whether the keys of an association list are strictly increasing: it
stands for a map in the order the encoder writes it. -/
def sortedKeys {α : Type} : List (Bytes × α) → Bool
  | [] => true
  | (k, _) :: rest => rest.all (fun kv => bytesLt k kv.1) && sortedKeys rest

mutual
/-- A value the decoder reads back from its encoding: strings and keys are
valid UTF-8, the keys of every map are strictly increasing, every number is
one the float encoder writes as a literal that converts to it, and arrays and
maps are nested at most `depth` deep. -/
def wellFormed (format : Float64 → Bytes) (depth : Nat) : Value → Bool
  | .null => true
  | .bool _ => true
  | .number f => decide (convertNumber (format f) = some f)
  | .string s => validUTF8 s
  | .array xs =>
    match depth with
    | 0 => false
    | inner + 1 => wellFormedElems format inner xs
  | .object kvs =>
    match depth with
    | 0 => false
    | inner + 1 => sortedKeys kvs && wellFormedMembers format inner kvs
  | .unsupported => false
/-- Every element is well formed. -/
def wellFormedElems (format : Float64 → Bytes) (depth : Nat) : List Value → Bool
  | [] => true
  | x :: xs => wellFormed format depth x && wellFormedElems format depth xs
/-- Every key is valid UTF-8 and every member value well formed. -/
def wellFormedMembers (format : Float64 → Bytes) (depth : Nat) : List (Bytes × Value) → Bool
  | [] => true
  | (k, x) :: kvs =>
    validUTF8 k && wellFormed format depth x && wellFormedMembers format depth kvs
end

/-- The bytes `enc` stand for the bytes `dec` inside a string literal: the
scanner passes over `enc`, and `unquote` turns it into `dec`. -/
def EncodesChunk (enc dec : Bytes) : Prop :=
  (∀ X raw r, scanStringFrom .inString X = some (raw, r) →
    scanStringFrom .inString (enc ++ X) = some (enc ++ raw, r)) ∧
  (∀ X, unquoteFrom 0 (enc ++ X) = dec ++ unquoteFrom 0 X)

/-- The first byte of a JSON value. -/
def valueStart (c : Nat) : Bool :=
  c = 123 ∨ c = 91 ∨ c = 34 ∨ c = 110 ∨ c = 116 ∨ c = 102 ∨ c = 45 ∨ isDigit c

/-- The parser reads the encoding of every value that is well formed within
`depth` levels back to that value, at any nesting depth that leaves room for
those levels and with any fuel of at least twice the length of the input
plus one. -/
def ReadsBack (ff : FloatFormat) (depth : Nat) : Prop :=
  ∀ v, wellFormed ff.format depth v = true → ∀ d F rest, d + depth ≤ maxNestingDepth →
    delimited rest = true → 2 * (encodeValue ff.format v ++ rest).length + 1 ≤ F →
    ∃ j, parseValue F d (encodeValue ff.format v ++ rest) = .ok j rest ∧
      valueInterface j = v ∧ rangeError j = false

/-- A gist whose `Files` holds a value `json.Marshal` rejects, such as a
channel. -/
def unsupportedGist : Gist :=
  { Description := str "d", Public := true, Files := .unsupported }

/-! ## The JSON parser consumes input and needs no more fuel than `parse` gives -/

theorem skipSpace_length_le (bs : Bytes) : (skipSpace bs).length ≤ bs.length := by
  induction bs with
  | nil => simp [skipSpace]
  | cons c rest ih =>
    simp only [skipSpace]
    split
    · simp only [List.length_cons]; omega
    · simp

theorem consRaw_some {c : Nat} {o : Option (Bytes × Bytes)} {raw r : Bytes}
    (h : consRaw c o = some (raw, r)) : ∃ raw1, o = some (raw1, r) := by
  cases o with
  | none => simp [consRaw] at h
  | some p =>
    obtain ⟨a, b⟩ := p
    simp only [consRaw, Option.some.injEq, Prod.mk.injEq] at h
    exact ⟨a, by rw [h.2]⟩

theorem scanStringFrom_length (bs : Bytes) : ∀ (st : StringState) (raw r : Bytes),
    scanStringFrom st bs = some (raw, r) → r.length < bs.length := by
  induction bs with
  | nil => intro st raw r h; simp [scanStringFrom] at h
  | cons c rest ih =>
    intro st raw r h
    simp only [List.length_cons]
    cases st with
    | inString =>
      simp only [scanStringFrom] at h
      split at h
      · simp only [Option.some.injEq, Prod.mk.injEq] at h
        rw [← h.2]; omega
      · split at h
        · obtain ⟨raw1, h1⟩ := consRaw_some h
          have := ih _ _ _ h1; omega
        · split at h
          · simp at h
          · obtain ⟨raw1, h1⟩ := consRaw_some h
            have := ih _ _ _ h1; omega
    | inStringEsc =>
      simp only [scanStringFrom] at h
      split at h
      · obtain ⟨raw1, h1⟩ := consRaw_some h
        have := ih _ _ _ h1; omega
      · split at h
        · obtain ⟨raw1, h1⟩ := consRaw_some h
          have := ih _ _ _ h1; omega
        · simp at h
    | inStringEscU seen =>
      simp only [scanStringFrom] at h
      split at h
      · obtain ⟨raw1, h1⟩ := consRaw_some h
        have := ih _ _ _ h1; omega
      · simp at h

theorem scanString_length {bs raw r : Bytes} (h : scanString bs = some (raw, r)) :
    r.length < bs.length := scanStringFrom_length bs _ raw r h

theorem expectBytes_length (lit : Bytes) : ∀ (bs r : Bytes),
    expectBytes lit bs = some r → r.length ≤ bs.length := by
  induction lit with
  | nil => intro bs r h; simp [expectBytes] at h; rw [h]
  | cons l lit ih =>
    intro bs r h
    cases bs with
    | nil => simp [expectBytes] at h
    | cons c bs =>
      simp only [expectBytes] at h
      split at h
      · have := ih _ _ h; simp only [List.length_cons]; omega
      · simp at h

theorem spanDigits_length (bs : Bytes) : (spanDigits bs).2.length ≤ bs.length := by
  induction bs with
  | nil => simp [spanDigits]
  | cons c rest ih =>
    simp only [spanDigits]
    split
    · simp only [List.length_cons]; omega
    · simp

theorem scanInt_length {bs ip r : Bytes} (h : scanInt bs = some (ip, r)) : r.length < bs.length := by
  cases bs with
  | nil => simp [scanInt] at h
  | cons d rest =>
    simp only [scanInt] at h
    split at h
    · simp only [Option.some.injEq, Prod.mk.injEq] at h
      rw [← h.2]; simp
    · split at h
      · simp only [Option.some.injEq, Prod.mk.injEq] at h
        have := spanDigits_length rest
        rw [← h.2]; simp only [List.length_cons]; omega
      · simp at h

theorem scanFrac_length {bs fp r : Bytes} (h : scanFrac bs = some (fp, r)) : r.length ≤ bs.length := by
  unfold scanFrac at h
  split at h
  · rename_i rest
    have := spanDigits_length rest
    split at h
    · simp at h
    · rename_i ds r1 _ heq
      simp only [Option.some.injEq, Prod.mk.injEq] at h
      rw [heq] at this
      rw [← h.2]; simp only [List.length_cons]; simp at this; omega
  · simp only [Option.some.injEq, Prod.mk.injEq] at h
    rw [← h.2]

theorem scanExp_length {bs ep r : Bytes} (h : scanExp bs = some (ep, r)) : r.length ≤ bs.length := by
  unfold scanExp at h
  split at h
  · rename_i e rest
    split at h
    · split at h
      · rename_i s rest1
        split at h
        · have := spanDigits_length rest1
          split at h
          · simp at h
          · rename_i ds r1 _ heq
            simp only [Option.some.injEq, Prod.mk.injEq] at h
            rw [heq] at this
            rw [← h.2]; simp only [List.length_cons]; simp at this; omega
        · have := spanDigits_length (s :: rest1)
          split at h
          · simp at h
          · rename_i ds r1 _ heq
            simp only [Option.some.injEq, Prod.mk.injEq] at h
            rw [heq] at this
            rw [← h.2]; simp only [List.length_cons] at this ⊢; omega
      · simp at h
    · simp only [Option.some.injEq, Prod.mk.injEq] at h
      rw [← h.2]
  · simp only [Option.some.injEq, Prod.mk.injEq] at h
    rw [← h.2]

theorem scanNumber_length {bs lit r : Bytes} (h : scanNumber bs = some (lit, r)) :
    r.length < bs.length := by
  unfold scanNumber at h
  split at h
  · simp at h
  · rename_i ip r1 hint
    split at h
    · simp at h
    · rename_i fp r2 hfrac
      split at h
      · simp at h
      · rename_i ep r3 hexp
        simp only [Option.some.injEq, Prod.mk.injEq] at h
        have h1 := scanInt_length hint
        have h2 := scanFrac_length hfrac
        have h3 := scanExp_length hexp
        rw [← h.2]
        have h4 : (scanSign bs).2.length ≤ bs.length := by
          cases bs with
          | nil => simp [scanSign]
          | cons c rest =>
            simp only [scanSign]
            split <;> simp
        omega

theorem skipSpace_cons_length {bs r : Bytes} {c : Nat} (h : skipSpace bs = c :: r) :
    r.length < bs.length := by
  have := skipSpace_length_le bs
  rw [h] at this
  simp only [List.length_cons] at this
  omega

theorem parse_length (fuel : Nat) :
    (∀ d bs v r, parseValue fuel d bs = .ok v r → r.length < bs.length) ∧
    (∀ d bs vs r, parseElems fuel d bs = .ok vs r → r.length < bs.length) ∧
    (∀ d bs ms r, parseMembers fuel d bs = .ok ms r → r.length < bs.length) := by
  induction fuel with
  | zero =>
    refine ⟨?_, ?_, ?_⟩ <;> intro d bs v r h
    · simp [parseValue] at h
    · simp [parseElems] at h
    · simp [parseMembers] at h
  | succ fuel ih =>
    obtain ⟨ihV, ihE, ihM⟩ := ih
    refine ⟨?_, ?_, ?_⟩
    · intro d bs v r h
      cases bs with
      | nil => simp [parseValue] at h
      | cons c rest =>
        simp only [parseValue] at h
        simp only [List.length_cons]
        have hs := skipSpace_length_le rest
        split at h
        · split at h
          · simp at h
          · split at h
            · rename_i r1 heq
              have := skipSpace_cons_length heq
              simp only [Parsed.ok.injEq] at h
              rw [← h.2]; omega
            · split at h
              · rename_i ms r1 heq
                have := ihM _ _ _ _ heq
                simp only [Parsed.ok.injEq] at h
                rw [← h.2]; omega
              · simp at h
              · simp at h
        · split at h
          · split at h
            · simp at h
            · split at h
              · rename_i r1 heq
                have := skipSpace_cons_length heq
                simp only [Parsed.ok.injEq] at h
                rw [← h.2]; omega
              · split at h
                · rename_i es r1 heq
                  have := ihE _ _ _ _ heq
                  simp only [Parsed.ok.injEq] at h
                  rw [← h.2]; omega
                · simp at h
                · simp at h
          · split at h
            · split at h
              · rename_i raw r1 heq
                have := scanString_length heq
                simp only [Parsed.ok.injEq] at h
                rw [← h.2]; omega
              · simp at h
            · split at h
              · split at h
                · rename_i r1 heq
                  have := expectBytes_length _ _ _ heq
                  simp only [Parsed.ok.injEq] at h
                  rw [← h.2]; omega
                · simp at h
              · split at h
                · split at h
                  · rename_i r1 heq
                    have := expectBytes_length _ _ _ heq
                    simp only [Parsed.ok.injEq] at h
                    rw [← h.2]; omega
                  · simp at h
                · split at h
                  · split at h
                    · rename_i r1 heq
                      have := expectBytes_length _ _ _ heq
                      simp only [Parsed.ok.injEq] at h
                      rw [← h.2]; omega
                    · simp at h
                  · split at h
                    · split at h
                      · rename_i lit r1 heq
                        have := scanNumber_length heq
                        simp only [Parsed.ok.injEq] at h
                        simp only [List.length_cons] at this
                        rw [← h.2]; omega
                      · simp at h
                    · simp at h
    · intro d bs vs r h
      simp only [parseElems] at h
      split at h
      · rename_i v r0 heq
        have h0 := ihV _ _ _ _ heq
        have hs := skipSpace_length_le r0
        split at h
        · rename_i r1 heq1
          have h1 := skipSpace_cons_length heq1
          have hs1 := skipSpace_length_le r1
          split at h
          · rename_i vs1 r2 heq2
            have := ihE _ _ _ _ heq2
            simp only [Parsed.ok.injEq] at h
            rw [← h.2]; omega
          · simp at h
          · simp at h
        · rename_i r1 heq1
          have h1 := skipSpace_cons_length heq1
          simp only [Parsed.ok.injEq] at h
          rw [← h.2]; omega
        · simp at h
      · simp at h
      · simp at h
    · intro d bs ms r h
      cases bs with
      | nil => simp [parseMembers] at h
      | cons q rest =>
        simp only [parseMembers] at h
        simp only [List.length_cons]
        split at h
        · split at h
          · simp at h
          · rename_i key r0 heq0
            have h0 := scanString_length heq0
            split at h
            · rename_i r1 heq1
              have h1 := skipSpace_cons_length heq1
              have hs1 := skipSpace_length_le r1
              split at h
              · rename_i v r2 heq2
                have h2 := ihV _ _ _ _ heq2
                split at h
                · rename_i r3 heq3
                  have h3 := skipSpace_cons_length heq3
                  have hs3 := skipSpace_length_le r3
                  split at h
                  · rename_i ms1 r4 heq4
                    have := ihM _ _ _ _ heq4
                    simp only [Parsed.ok.injEq] at h
                    rw [← h.2]; omega
                  · simp at h
                  · simp at h
                · rename_i r3 heq3
                  have h3 := skipSpace_cons_length heq3
                  simp only [Parsed.ok.injEq] at h
                  rw [← h.2]; omega
                · simp at h
              · simp at h
              · simp at h
            · simp at h
        · simp at h

theorem parse_fuel_aux (fuel : Nat) :
    (∀ d bs, 2 * bs.length + 1 ≤ fuel → parseValue fuel d bs ≠ .outOfFuel) ∧
    (∀ d bs, 2 * bs.length + 2 ≤ fuel → parseElems fuel d bs ≠ .outOfFuel) ∧
    (∀ d bs, 2 * bs.length + 2 ≤ fuel → parseMembers fuel d bs ≠ .outOfFuel) := by
  induction fuel with
  | zero =>
    refine ⟨?_, ?_, ?_⟩ <;> intro d bs hf <;> omega
  | succ fuel ih =>
    obtain ⟨ihV, ihE, ihM⟩ := ih
    refine ⟨?_, ?_, ?_⟩
    · intro d bs hf h
      cases bs with
      | nil => simp [parseValue] at h
      | cons c rest =>
        simp only [parseValue] at h
        simp only [List.length_cons] at hf
        have hs := skipSpace_length_le rest
        split at h
        · split at h
          · simp at h
          · split at h
            · simp at h
            · split at h
              · simp at h
              · simp at h
              · rename_i heq
                exact ihM _ _ (by omega) heq
        · split at h
          · split at h
            · simp at h
            · split at h
              · simp at h
              · split at h
                · simp at h
                · simp at h
                · rename_i heq
                  exact ihE _ _ (by omega) heq
          · split at h
            · split at h <;> simp at h
            · split at h
              · split at h <;> simp at h
              · split at h
                · split at h <;> simp at h
                · split at h
                  · split at h <;> simp at h
                  · split at h
                    · split at h <;> simp at h
                    · simp at h
    · intro d bs hf h
      simp only [parseElems] at h
      split at h
      · rename_i v r0 heq
        have h0 := (parse_length fuel).1 _ _ _ _ heq
        have hs := skipSpace_length_le r0
        split at h
        · rename_i r1 heq1
          have h1 := skipSpace_cons_length heq1
          have hs1 := skipSpace_length_le r1
          split at h
          · simp at h
          · simp at h
          · rename_i heq2
            exact ihE _ _ (by omega) heq2
        · simp at h
        · simp at h
      · simp at h
      · rename_i heq
        exact ihV _ _ (by omega) heq
    · intro d bs hf h
      cases bs with
      | nil => simp [parseMembers] at h
      | cons q rest =>
        simp only [parseMembers] at h
        simp only [List.length_cons] at hf
        split at h
        · split at h
          · simp at h
          · rename_i key r0 heq0
            have h0 := scanString_length heq0
            split at h
            · rename_i r1 heq1
              have h1 := skipSpace_cons_length heq1
              have hs1 := skipSpace_length_le r1
              split at h
              · rename_i v r2 heq2
                have h2 := (parse_length fuel).1 _ _ _ _ heq2
                split at h
                · rename_i r3 heq3
                  have h3 := skipSpace_cons_length heq3
                  have hs3 := skipSpace_length_le r3
                  split at h
                  · simp at h
                  · simp at h
                  · rename_i heq4
                    exact ihM _ _ (by omega) heq4
                · simp at h
                · simp at h
              · simp at h
              · rename_i heq2
                exact ihV _ _ (by omega) heq2
            · simp at h
        · simp at h

/-- The fuel `parse` gives to the parser is never exhausted: a `none` of
`parse` is a syntax error. -/
theorem parse_fuel (data : Bytes) :
    parseValue (2 * data.length + 1) 0 (skipSpace data) ≠ .outOfFuel := by
  have hs := skipSpace_length_le data
  exact (parse_fuel_aux _).1 0 _ (by omega)

/-! ## Decoding into a slice and into an interface -/

theorem storeValue_eq_valueInterface (j : Json) (old : Value) (h : rangeError j = false) :
    storeValue j old = valueInterface j := by
  cases j with
  | number lit =>
    simp only [rangeError] at h
    cases hc : convertNumber lit with
    | none => simp [hc] at h
    | some f => simp [storeValue, valueInterface, hc]
  | null => rfl
  | bool b => rfl
  | string raw => rfl
  | array es => rfl
  | object ms => rfl

/-- A syntax error leaves the destination slice as it is. -/
theorem UnmarshalSlice_of_syntaxError (data : Bytes) (h : parse data = none) (g : APIResponse) :
    UnmarshalSlice data g = (g, some .SyntaxError) := by
  simp [UnmarshalSlice, h]

/-- A syntax error leaves the destination `interface{}` as it is. -/
theorem UnmarshalInterface_of_syntaxError (data : Bytes) (h : parse data = none) (v : Value) :
    UnmarshalInterface data v = (v, some .SyntaxError) := by
  simp [UnmarshalInterface, h]

/-! ## The request helper -/

theorem sprintf_bearer (t : Bytes) : Sprintf (str "Bearer %s") t = str "Bearer " ++ t := by
  have h : Sprintf (str "Bearer %s") t = str "Bearer " ++ (t ++ []) := rfl
  rw [h, List.append_nil]

theorem errorf_request_failed (e : GoError) :
    Errorf (str "request failed: %w") e = .wrapError (str "request failed: " ++ e.Error) e := by
  have h : Errorf (str "request failed: %w") e
      = .wrapError (str "request failed: " ++ (e.Error ++ [])) e := rfl
  rw [h, List.append_nil]

/-- When `http.NewRequest` returns an error, the nil request is dereferenced:
the call panics before anything is sent. -/
theorem makeRequest_rejected (rt : Runtime) (requestType url token : Bytes)
    (payload : Option Bytes) (w : World) (h : rt.accepts requestType url = false) :
    makeRequest rt requestType url token payload w = (.panic, w) := by
  cases payload <;> simp [makeRequest, NewRequest, h]

/-- When `http.NewRequest` accepts, `makeRequest` sends `builtRequest` and
returns the body read, or the wrapped error of the client. -/
theorem makeRequest_accepted (rt : Runtime) (requestType url token : Bytes)
    (payload : Option Bytes) (w : World) (h : rt.accepts requestType url = true) :
    makeRequest rt requestType url token payload w =
      match rt.Do w.sent (builtRequest requestType url token payload) with
      | .error err =>
        (.returned (none, some (.wrapError (str "request failed: " ++ err.toError.Error)
            err.toError)),
          { w with sent := w.sent ++ [builtRequest requestType url token payload] })
      | .ok response =>
        (.returned (some response.Body.data, none),
          { w with sent := w.sent ++ [builtRequest requestType url token payload] }) := by
  have hne : (str "Accept" = str "Authorization") = False := by
    simp only [eq_iff_iff, iff_false]; decide
  have hreq : (if token ≠ str "" then
        ({ Method := if requestType = [] then str "GET" else requestType, URL := url,
           Header := HeaderSet (HeaderSet [] (str "Accept") (str "application/vnd.github+json"))
             (str "Authorization") (Sprintf (str "Bearer %s") token),
           Body := payload } : Request)
      else
        { Method := if requestType = [] then str "GET" else requestType, URL := url,
          Header := HeaderSet [] (str "Accept") (str "application/vnd.github+json"),
          Body := payload }) = builtRequest requestType url token payload := by
    by_cases ht : token = str ""
    · simp [ht, builtRequest, HeaderSet]
    · simp [ht, builtRequest, HeaderSet, hne, sprintf_bearer]
  cases payload <;>
    simp only [makeRequest, NewRequest, h, if_true, errorf_request_failed, ReadAll] <;>
    rw [hreq]

theorem makeRequest_ok (rt : Runtime) (requestType url token : Bytes)
    (payload : Option Bytes) (w : World) (response : Response)
    (h : rt.accepts requestType url = true)
    (hdo : rt.Do w.sent (builtRequest requestType url token payload) = .ok response) :
    makeRequest rt requestType url token payload w =
      (.returned (some response.Body.data, none),
        { w with sent := w.sent ++ [builtRequest requestType url token payload] }) := by
  rw [makeRequest_accepted _ _ _ _ _ _ h, hdo]

theorem makeRequest_error (rt : Runtime) (requestType url token : Bytes)
    (payload : Option Bytes) (w : World) (e : URLError)
    (h : rt.accepts requestType url = true)
    (hdo : rt.Do w.sent (builtRequest requestType url token payload) = .error e) :
    makeRequest rt requestType url token payload w =
      (.returned (none, some (.wrapError (str "request failed: " ++ e.toError.Error) e.toError)),
        { w with sent := w.sent ++ [builtRequest requestType url token payload] }) := by
  rw [makeRequest_accepted _ _ _ _ _ _ h, hdo]

/-! ## The facade operations -/

theorem GetPublicRepositories_eq (rt : Runtime) (w : World) :
    GetPublicRepositories rt w
      = GetMoreInformationFromURL rt (str "https://api.github.com/repositories") (str "") w := rfl

theorem GetPublicGists_eq (rt : Runtime) (w : World) :
    GetPublicGists rt w
      = GetMoreInformationFromURL rt (str "https://api.github.com/gists/public") (str "") w := rfl

theorem GetRepositoriesForAuthenticatedUser_eq (rt : Runtime) (token : Bytes) (w : World) :
    GetRepositoriesForAuthenticatedUser rt token w
      = GetMoreInformationFromURL rt (str "https://api.github.com/user/repos?type=private") token w :=
  rfl

theorem GetGistsForAuthenticatedUser_eq (rt : Runtime) (token : Bytes) (w : World) :
    GetGistsForAuthenticatedUser rt token w
      = GetMoreInformationFromURL rt (str "https://api.github.com/gists") token w := rfl

theorem GetMoreInformationFromURL_ok (rt : Runtime) (url token : Bytes) (w : World)
    (response : Response) (h : rt.accepts (str "GET") url = true)
    (hdo : rt.Do w.sent (builtRequest (str "GET") url token none) = .ok response) :
    GetMoreInformationFromURL rt url token w =
      (.returned ((UnmarshalSlice response.Body.data w.githubResponse).1, none),
        { githubResponse := (UnmarshalSlice response.Body.data w.githubResponse).1,
          sent := w.sent ++ [builtRequest (str "GET") url token none] }) := by
  simp only [GetMoreInformationFromURL, MakeGetRequest, makeRequest_ok _ _ _ _ _ _ _ h hdo, bytesOf,
    Option.getD_some]

theorem GetMoreInformationFromURL_error (rt : Runtime) (url token : Bytes) (w : World)
    (e : URLError) (h : rt.accepts (str "GET") url = true)
    (hdo : rt.Do w.sent (builtRequest (str "GET") url token none) = .error e) :
    GetMoreInformationFromURL rt url token w =
      (.returned (.nil, some (.wrapError (str "request failed: " ++ e.toError.Error) e.toError)),
        { w with sent := w.sent ++ [builtRequest (str "GET") url token none] }) := by
  simp only [GetMoreInformationFromURL, MakeGetRequest, makeRequest_error _ _ _ _ _ _ _ h hdo]

theorem GetGistContent_ok (rt : Runtime) (url token : Bytes) (w : World)
    (response : Response) (h : rt.accepts (str "GET") url = true)
    (hdo : rt.Do w.sent (builtRequest (str "GET") url token none) = .ok response) :
    GetGistContent rt url token w =
      (.returned (response.Body.data, none),
        { w with sent := w.sent ++ [builtRequest (str "GET") url token none] }) := by
  simp only [GetGistContent, MakeGetRequest, makeRequest_ok _ _ _ _ _ _ _ h hdo, bytesOf,
    Option.getD_some]

theorem GetGistContent_error (rt : Runtime) (url token : Bytes) (w : World)
    (e : URLError) (h : rt.accepts (str "GET") url = true)
    (hdo : rt.Do w.sent (builtRequest (str "GET") url token none) = .error e) :
    GetGistContent rt url token w =
      (.returned (str "", some (.wrapError (str "request failed: " ++ e.toError.Error) e.toError)),
        { w with sent := w.sent ++ [builtRequest (str "GET") url token none] }) := by
  simp only [GetGistContent, MakeGetRequest, makeRequest_error _ _ _ _ _ _ _ h hdo]

theorem CreateNewGist_ok (rt : Runtime) (gist : Gist) (token : Bytes) (w : World)
    (response : Response) (h : rt.accepts (str "POST") (str "https://api.github.com/gists") = true)
    (hdo : rt.Do w.sent (builtRequest (str "POST") (str "https://api.github.com/gists") token
      (Marshal rt.formatFloat.format gist).1) = .ok response) :
    CreateNewGist rt gist token w =
      (.returned ((UnmarshalInterface response.Body.data .null).1, none),
        { w with sent := w.sent ++ [builtRequest (str "POST") (str "https://api.github.com/gists")
          token (Marshal rt.formatFloat.format gist).1] }) := by
  have hurl : Sprintf (str "%s/gists") BaseUrl = str "https://api.github.com/gists" := rfl
  simp only [CreateNewGist, MakePostRequest, hurl, makeRequest_ok _ _ _ _ _ _ _ h hdo, bytesOf,
    Option.getD_some]

theorem CreateNewGist_error (rt : Runtime) (gist : Gist) (token : Bytes) (w : World)
    (e : URLError) (h : rt.accepts (str "POST") (str "https://api.github.com/gists") = true)
    (hdo : rt.Do w.sent (builtRequest (str "POST") (str "https://api.github.com/gists") token
      (Marshal rt.formatFloat.format gist).1) = .error e) :
    CreateNewGist rt gist token w =
      (.returned (.null, some (.wrapError (str "request failed: " ++ e.toError.Error) e.toError)),
        { w with sent := w.sent ++ [builtRequest (str "POST") (str "https://api.github.com/gists")
          token (Marshal rt.formatFloat.format gist).1] }) := by
  have hurl : Sprintf (str "%s/gists") BaseUrl = str "https://api.github.com/gists" := rfl
  simp only [CreateNewGist, MakePostRequest, hurl, makeRequest_error _ _ _ _ _ _ _ h hdo]

theorem GetMoreInformationFromURL_sent (rt : Runtime) (url token : Bytes) (w : World)
    (h : rt.accepts (str "GET") url = true) :
    (GetMoreInformationFromURL rt url token w).2.sent
      = w.sent ++ [builtRequest (str "GET") url token none] := by
  cases hdo : rt.Do w.sent (builtRequest (str "GET") url token none) with
  | error e => rw [GetMoreInformationFromURL_error _ _ _ _ e h hdo]
  | ok response => rw [GetMoreInformationFromURL_ok _ _ _ _ response h hdo]

theorem CreateNewGist_sent (rt : Runtime) (gist : Gist) (token : Bytes) (w : World)
    (h : rt.accepts (str "POST") (str "https://api.github.com/gists") = true) :
    (CreateNewGist rt gist token w).2.sent
      = w.sent ++ [builtRequest (str "POST") (str "https://api.github.com/gists") token
          (Marshal rt.formatFloat.format gist).1] := by
  cases hdo : rt.Do w.sent (builtRequest (str "POST") (str "https://api.github.com/gists") token
      (Marshal rt.formatFloat.format gist).1) with
  | error e => rw [CreateNewGist_error _ _ _ _ e h hdo]
  | ok response => rw [CreateNewGist_ok _ _ _ _ response h hdo]

theorem encodeFields_three (k1 k2 k3 v1 v2 v3 : Bytes) :
    encodeFields [(k1, v1), (k2, v2), (k3, v3)]
      = ([123] ++ encodeString k1 ++ [58]) ++ v1 ++ ([44] ++ encodeString k2 ++ [58]) ++ v2
          ++ ([44] ++ encodeString k3 ++ [58]) ++ v3 ++ [125] := by
  simp [encodeFields, joinComma, List.append_assoc]

theorem Float64.one_toRat : Float64.one.toRat = 1 := by
  norm_num [Float64.toRat, Float64.one]

/-- A number literal too large for a float64 is stored nowhere: the slot of a
slice element keeps what it held. -/
theorem storeValue_out_of_range (lit : Bytes) (old : Value) (h : convertNumber lit = none) :
    storeValue (.number lit) old = old := by
  simp [storeValue, h]

/-- The literal `1e999` is out of the float64 range, and `1` converts to the
float64 one. -/
theorem convertNumber_examples :
    convertNumber (str "1e999") = none ∧ convertNumber (str "1") = some Float64.one := by
  decide!

/-! ## Strings: the scanner and `unquote` read back what `appendString` writes -/

theorem hexVal_hexDigit (n : Nat) (h : n < 16) : hexVal (hexDigit n) = some n := by
  unfold hexDigit hexVal
  split
  · rw [if_pos (by omega)]; congr 1; omega
  · rw [if_neg (by omega), if_pos (by omega)]; congr 1; omega

theorem appendStringFrom_zero (keep : Bool) (xs : Bytes) :
    appendStringFrom 0 keep xs = appendStringFrom 0 true xs := by
  cases xs with
  | nil => simp [appendStringFrom]
  | cons c rest => simp [appendStringFrom]

theorem appendStringFrom_keep (k : Nat) : ∀ xs : Bytes,
    appendStringFrom k true xs = xs.take k ++ appendStringFrom 0 true (xs.drop k) := by
  induction k with
  | zero => intro xs; simp
  | succ k ih =>
    intro xs
    cases xs with
    | nil => simp [appendStringFrom]
    | cons c rest => simp [appendStringFrom, ih]

theorem appendStringFrom_drop (k : Nat) : ∀ xs : Bytes,
    appendStringFrom k false xs = appendStringFrom 0 true (xs.drop k) := by
  induction k with
  | zero => intro xs; simpa using appendStringFrom_zero false xs
  | succ k ih =>
    intro xs
    cases xs with
    | nil => simp [appendStringFrom]
    | cons c rest => simp [appendStringFrom, ih]

theorem unquoteFrom_skip (k : Nat) : ∀ xs : Bytes,
    unquoteFrom k xs = unquoteFrom 0 (xs.drop k) := by
  induction k with
  | zero => intro xs; simp
  | succ k ih =>
    intro xs
    cases xs with
    | nil => simp [unquoteFrom]
    | cons c rest => simp [unquoteFrom, ih]

theorem validUTF8From_skip (k : Nat) : ∀ xs : Bytes,
    validUTF8From k xs = validUTF8From 0 (xs.drop k) := by
  induction k with
  | zero => intro xs; simp
  | succ k ih =>
    intro xs
    cases xs with
    | nil => simp [validUTF8From]
    | cons c rest => simp [validUTF8From, ih]

theorem decodeRune_two (c b1 : Nat) (t : Bytes) (h1 : 0xC2 ≤ c) (h2 : c ≤ 0xDF)
    (h3 : 0x80 ≤ b1) (h4 : b1 ≤ 0xBF) :
    decodeRune (c :: b1 :: t) = (c % 32 * 64 + b1 % 64, 2) := by
  simp only [decodeRune]
  rw [if_neg (by omega), if_neg (by omega)]
  simp only [show c < 0xE0 from by omega, if_true]
  rw [if_neg (by simp), if_neg (by split_ifs <;> omega)]
  simp

theorem decodeRune_three (c b1 b2 : Nat) (t : Bytes) (h1 : 0xE0 ≤ c) (h2 : c ≤ 0xEF)
    (hlo : c = 0xE0 → 0xA0 ≤ b1) (hhi : c = 0xED → b1 ≤ 0x9F)
    (h3 : 0x80 ≤ b1) (h4 : b1 ≤ 0xBF) (h5 : 0x80 ≤ b2) (h6 : b2 ≤ 0xBF) :
    decodeRune (c :: b1 :: b2 :: t) = (c % 16 * 4096 + b1 % 64 * 64 + b2 % 64, 3) := by
  simp only [decodeRune]
  rw [if_neg (by omega), if_neg (by omega)]
  simp only [show ¬ c < 0xE0 from by omega, show c < 0xF0 from by omega, if_true, if_false]
  rw [if_neg (by simp), if_neg (by split_ifs <;> omega)]
  simp only [show ¬ (3 ≤ 2) from by omega, if_false]
  rw [if_neg (by omega)]
  simp

theorem decodeRune_four (c b1 b2 b3 : Nat) (t : Bytes) (h1 : 0xF0 ≤ c) (h2 : c ≤ 0xF4)
    (hlo : c = 0xF0 → 0x90 ≤ b1) (hhi : c = 0xF4 → b1 ≤ 0x8F)
    (h3 : 0x80 ≤ b1) (h4 : b1 ≤ 0xBF) (h5 : 0x80 ≤ b2) (h6 : b2 ≤ 0xBF)
    (h7 : 0x80 ≤ b3) (h8 : b3 ≤ 0xBF) :
    decodeRune (c :: b1 :: b2 :: b3 :: t)
      = (c % 8 * 262144 + b1 % 64 * 4096 + b2 % 64 * 64 + b3 % 64, 4) := by
  simp only [decodeRune]
  rw [if_neg (by omega), if_neg (by omega)]
  simp only [show ¬ c < 0xE0 from by omega, show ¬ c < 0xF0 from by omega, if_false]
  rw [if_neg (by simp), if_neg (by split_ifs <;> omega)]
  simp only [show ¬ (4 ≤ 2) from by omega, show ¬ (4 ≤ 3) from by omega, if_false]
  rw [if_neg (by omega), if_neg (by omega)]

/-- The first rune of a string that does not start with an ASCII byte and is
not rejected by `utf8.DecodeRune` is a sequence of two, three or four bytes
in the ranges of the UTF-8 encoding. -/
theorem decodeRune_cases (c : Nat) (rest : Bytes) (hc : ¬ c < 0x80)
    (h : (decodeRune (c :: rest)).2 ≠ 1) :
    (∃ b1 t, rest = b1 :: t ∧ 0xC2 ≤ c ∧ c ≤ 0xDF ∧ 0x80 ≤ b1 ∧ b1 ≤ 0xBF) ∨
    (∃ b1 b2 t, rest = b1 :: b2 :: t ∧ 0xE0 ≤ c ∧ c ≤ 0xEF ∧ (c = 0xE0 → 0xA0 ≤ b1) ∧
      (c = 0xED → b1 ≤ 0x9F) ∧ 0x80 ≤ b1 ∧ b1 ≤ 0xBF ∧ 0x80 ≤ b2 ∧ b2 ≤ 0xBF) ∨
    (∃ b1 b2 b3 t, rest = b1 :: b2 :: b3 :: t ∧ 0xF0 ≤ c ∧ c ≤ 0xF4 ∧ (c = 0xF0 → 0x90 ≤ b1) ∧
      (c = 0xF4 → b1 ≤ 0x8F) ∧ 0x80 ≤ b1 ∧ b1 ≤ 0xBF ∧ 0x80 ≤ b2 ∧ b2 ≤ 0xBF ∧
      0x80 ≤ b3 ∧ b3 ≤ 0xBF) := by
  by_cases hr : c < 0xC2 ∨ 0xF4 < c
  · exfalso; apply h
    simp only [decodeRune]
    rw [if_neg hc, if_pos hr]
  · have hr1 : 0xC2 ≤ c := by omega
    have hr2 : c ≤ 0xF4 := by omega
    cases rest with
    | nil =>
      exfalso; apply h
      simp only [decodeRune]
      rw [if_neg hc, if_neg hr]
      split_ifs <;> rfl
    | cons b1 r1 =>
      by_cases hb1 : b1 < (if c = 0xE0 then 0xA0 else if c = 0xF0 then 0x90 else 0x80) ∨
          (if c = 0xED then 0x9F else if c = 0xF4 then 0x8F else 0xBF) < b1
      · exfalso; apply h
        simp only [decodeRune]
        rw [if_neg hc, if_neg hr]
        split_ifs <;> rfl
      · have hb1lo : 0x80 ≤ b1 := by split_ifs at hb1 <;> omega
        have hb1hi : b1 ≤ 0xBF := by split_ifs at hb1 <;> omega
        have hE0 : c = 0xE0 → 0xA0 ≤ b1 := by intro hcE; split_ifs at hb1 <;> omega
        have hED : c = 0xED → b1 ≤ 0x9F := by intro hcE; split_ifs at hb1 <;> omega
        have hF0 : c = 0xF0 → 0x90 ≤ b1 := by intro hcE; split_ifs at hb1 <;> omega
        have hF4 : c = 0xF4 → b1 ≤ 0x8F := by intro hcE; split_ifs at hb1 <;> omega
        by_cases h2 : c < 0xE0
        · exact Or.inl ⟨b1, r1, rfl, hr1, by omega, hb1lo, hb1hi⟩
        · cases r1 with
          | nil =>
            exfalso; apply h
            simp only [decodeRune]
            rw [if_neg hc, if_neg hr]
            simp only [if_neg h2]
            split_ifs <;> simp at *
          | cons b2 r2 =>
            by_cases hb2 : b2 < 0x80 ∨ 0xBF < b2
            · exfalso; apply h
              simp only [decodeRune]
              rw [if_neg hc, if_neg hr]
              simp only [if_neg h2]
              split_ifs <;> simp at *
            · by_cases h3 : c < 0xF0
              · exact Or.inr (Or.inl ⟨b1, b2, r2, rfl, by omega, by omega, hE0, hED, hb1lo, hb1hi,
                  by omega, by omega⟩)
              · cases r2 with
                | nil =>
                  exfalso; apply h
                  simp only [decodeRune]
                  rw [if_neg hc, if_neg hr]
                  simp only [if_neg h2, if_neg h3]
                  split_ifs <;> simp at *
                | cons b3 t =>
                  by_cases hb3 : b3 < 0x80 ∨ 0xBF < b3
                  · exfalso; apply h
                    simp only [decodeRune]
                    rw [if_neg hc, if_neg hr]
                    simp only [if_neg h2, if_neg h3]
                    split_ifs <;> simp at *
                  · exact Or.inr (Or.inr ⟨b1, b2, b3, t, rfl, by omega, hr2, hF0, hF4, hb1lo, hb1hi,
                      by omega, by omega, by omega, by omega⟩)

theorem encodeRune_two (c b1 : Nat) (h1 : 0xC2 ≤ c) (h2 : c ≤ 0xDF)
    (h3 : 0x80 ≤ b1) (h4 : b1 ≤ 0xBF) : encodeRune (c % 32 * 64 + b1 % 64) = [c, b1] := by
  unfold encodeRune
  rw [if_neg (by omega), if_pos (by omega)]
  congr 1
  · omega
  · congr 1; omega

theorem encodeRune_three (c b1 b2 : Nat) (h1 : 0xE0 ≤ c) (h2 : c ≤ 0xEF)
    (hlo : c = 0xE0 → 0xA0 ≤ b1) (hhi : c = 0xED → b1 ≤ 0x9F)
    (h3 : 0x80 ≤ b1) (h4 : b1 ≤ 0xBF) (h5 : 0x80 ≤ b2) (h6 : b2 ≤ 0xBF) :
    encodeRune (c % 16 * 4096 + b1 % 64 * 64 + b2 % 64) = [c, b1, b2] := by
  unfold encodeRune
  rw [if_neg (by omega), if_neg (by omega), if_neg (by omega), if_pos (by omega)]
  congr 1
  · omega
  · congr 1
    · omega
    · congr 1; omega

theorem encodeRune_four (c b1 b2 b3 : Nat) (h1 : 0xF0 ≤ c) (h2 : c ≤ 0xF4)
    (hlo : c = 0xF0 → 0x90 ≤ b1) (hhi : c = 0xF4 → b1 ≤ 0x8F)
    (h3 : 0x80 ≤ b1) (h4 : b1 ≤ 0xBF) (h5 : 0x80 ≤ b2) (h6 : b2 ≤ 0xBF)
    (h7 : 0x80 ≤ b3) (h8 : b3 ≤ 0xBF) :
    encodeRune (c % 8 * 262144 + b1 % 64 * 4096 + b2 % 64 * 64 + b3 % 64) = [c, b1, b2, b3] := by
  unfold encodeRune
  rw [if_neg (by omega), if_neg (by omega), if_neg (by omega), if_neg (by omega)]
  congr 1
  · omega
  · congr 1
    · omega
    · congr 1
      · omega
      · congr 1; omega

theorem chunk_plain (c : Nat) (h1 : c ≠ 34) (h2 : c ≠ 92) (h3 : ¬ c < 32) (h4 : c < 0x80) :
    EncodesChunk [c] [c] := by
  refine ⟨?_, ?_⟩
  · intro X raw r hX
    simp [scanStringFrom, h1, h2, h3, hX, consRaw]
  · intro X
    simp [unquoteFrom, h2, h4]

theorem chunk_high (c : Nat) (h : 0x80 ≤ c) (X raw r : Bytes)
    (hX : scanStringFrom .inString X = some (raw, r)) :
    scanStringFrom .inString (c :: X) = some (c :: raw, r) := by
  have h1 : c ≠ 34 := by omega
  have h2 : c ≠ 92 := by omega
  have h3 : ¬ c < 32 := by omega
  simp [scanStringFrom, h1, h2, h3, hX, consRaw]

theorem chunk_two (c b1 : Nat) (h1 : 0xC2 ≤ c) (h2 : c ≤ 0xDF)
    (h3 : 0x80 ≤ b1) (h4 : b1 ≤ 0xBF) : EncodesChunk [c, b1] [c, b1] := by
  refine ⟨?_, ?_⟩
  · intro X raw r hX
    exact chunk_high c (by omega) _ _ _ (chunk_high b1 h3 _ _ _ hX)
  · intro X
    have hd := decodeRune_two c b1 X h1 h2 h3 h4
    have he := encodeRune_two c b1 h1 h2 h3 h4
    show unquoteFrom 0 (c :: b1 :: X) = c :: b1 :: unquoteFrom 0 X
    simp only [unquoteFrom]
    rw [if_neg (by omega), if_neg (by omega), hd]
    simp only [he]
    simp [unquoteFrom]

theorem chunk_three (c b1 b2 : Nat) (h1 : 0xE0 ≤ c) (h2 : c ≤ 0xEF)
    (hlo : c = 0xE0 → 0xA0 ≤ b1) (hhi : c = 0xED → b1 ≤ 0x9F)
    (h3 : 0x80 ≤ b1) (h4 : b1 ≤ 0xBF) (h5 : 0x80 ≤ b2) (h6 : b2 ≤ 0xBF) :
    EncodesChunk [c, b1, b2] [c, b1, b2] := by
  refine ⟨?_, ?_⟩
  · intro X raw r hX
    exact chunk_high c (by omega) _ _ _ (chunk_high b1 h3 _ _ _ (chunk_high b2 h5 _ _ _ hX))
  · intro X
    have hd := decodeRune_three c b1 b2 X h1 h2 hlo hhi h3 h4 h5 h6
    have he := encodeRune_three c b1 b2 h1 h2 hlo hhi h3 h4 h5 h6
    show unquoteFrom 0 (c :: b1 :: b2 :: X) = c :: b1 :: b2 :: unquoteFrom 0 X
    simp only [unquoteFrom]
    rw [if_neg (by omega), if_neg (by omega), hd]
    simp only [he]
    simp [unquoteFrom]

theorem chunk_four (c b1 b2 b3 : Nat) (h1 : 0xF0 ≤ c) (h2 : c ≤ 0xF4)
    (hlo : c = 0xF0 → 0x90 ≤ b1) (hhi : c = 0xF4 → b1 ≤ 0x8F)
    (h3 : 0x80 ≤ b1) (h4 : b1 ≤ 0xBF) (h5 : 0x80 ≤ b2) (h6 : b2 ≤ 0xBF)
    (h7 : 0x80 ≤ b3) (h8 : b3 ≤ 0xBF) :
    EncodesChunk [c, b1, b2, b3] [c, b1, b2, b3] := by
  refine ⟨?_, ?_⟩
  · intro X raw r hX
    exact chunk_high c (by omega) _ _ _ (chunk_high b1 h3 _ _ _ (chunk_high b2 h5 _ _ _
      (chunk_high b3 h7 _ _ _ hX)))
  · intro X
    have hd := decodeRune_four c b1 b2 b3 X h1 h2 hlo hhi h3 h4 h5 h6 h7 h8
    have he := encodeRune_four c b1 b2 b3 h1 h2 hlo hhi h3 h4 h5 h6 h7 h8
    show unquoteFrom 0 (c :: b1 :: b2 :: b3 :: X) = c :: b1 :: b2 :: b3 :: unquoteFrom 0 X
    simp only [unquoteFrom]
    rw [if_neg (by omega), if_neg (by omega), hd]
    simp only [he]
    simp [unquoteFrom]

theorem chunk_escape (e : Nat) (he : isSimpleEscape e = true) :
    EncodesChunk [92, e] [unescape e] := by
  have h117 : e ≠ 117 := by
    intro h; subst h; simp [isSimpleEscape] at he
  refine ⟨?_, ?_⟩
  · intro X raw r hX
    simp [scanStringFrom, he, hX, consRaw]
  · intro X
    simp [unquoteFrom, h117]

theorem chunk_u4 (h1 h2 h3 h4 a b c d : Nat) (ha : hexVal h1 = some a) (hb : hexVal h2 = some b)
    (hc : hexVal h3 = some c) (hd : hexVal h4 = some d)
    (hs : ¬ (0xD800 ≤ a * 4096 + b * 256 + c * 16 + d ∧ a * 4096 + b * 256 + c * 16 + d < 0xE000)) :
    EncodesChunk [92, 117, h1, h2, h3, h4] (encodeRune (a * 4096 + b * 256 + c * 16 + d)) := by
  refine ⟨?_, ?_⟩
  · intro X raw r hX
    simp [scanStringFrom, isSimpleEscape, ha, hb, hc, hd, hX, consRaw]
  · intro X
    have hg : getu4 (92 :: 117 :: h1 :: h2 :: h3 :: h4 :: X)
        = some (a * 4096 + b * 256 + c * 16 + d) := by
      simp [getu4, ha, hb, hc, hd]
    show unquoteFrom 0 (92 :: 117 :: h1 :: h2 :: h3 :: h4 :: X) = _
    simp only [unquoteFrom, if_true]
    rw [hg]
    simp only [if_neg hs]

theorem chunk_escapeByte (c : Nat) (h1 : c < 0x80) (h2 : htmlSafe c = false) :
    EncodesChunk (escapeByte c) [c] := by
  unfold escapeByte
  split_ifs with ha hb hc hd he hf
  · have := chunk_escape c (by rcases ha with h | h <;> subst h <;> rfl)
    have hu : unescape c = c := by rcases ha with h | h <;> subst h <;> rfl
    rwa [hu] at this
  · subst hb; exact chunk_escape 98 rfl
  · subst hc; exact chunk_escape 102 rfl
  · subst hd; exact chunk_escape 110 rfl
  · subst he; exact chunk_escape 114 rfl
  · subst hf; exact chunk_escape 116 rfl
  · have h := chunk_u4 48 48 (hexDigit (c / 16)) (hexDigit (c % 16)) 0 0 (c / 16) (c % 16)
      rfl rfl (hexVal_hexDigit _ (by omega)) (hexVal_hexDigit _ (by omega)) (by omega)
    have hv : 0 * 4096 + 0 * 256 + c / 16 * 16 + c % 16 = c := by omega
    rw [hv] at h
    have he : encodeRune c = [c] := by
      unfold encodeRune; rw [if_pos (by omega)]
    rwa [he] at h

theorem appendString_two (c b1 : Nat) (t : Bytes) (h1 : 0xC2 ≤ c) (h2 : c ≤ 0xDF)
    (h3 : 0x80 ≤ b1) (h4 : b1 ≤ 0xBF) :
    appendStringFrom 0 true (c :: b1 :: t) = [c, b1] ++ appendStringFrom 0 true t := by
  have hd := decodeRune_two c b1 t h1 h2 h3 h4
  simp only [appendStringFrom]
  rw [if_neg (by omega), hd]
  simp only [RuneError]
  rw [if_neg (by omega), if_neg (by omega)]
  simp [appendStringFrom]

theorem appendString_three (c b1 b2 : Nat) (t : Bytes) (h1 : 0xE0 ≤ c) (h2 : c ≤ 0xEF)
    (hlo : c = 0xE0 → 0xA0 ≤ b1) (hhi : c = 0xED → b1 ≤ 0x9F)
    (h3 : 0x80 ≤ b1) (h4 : b1 ≤ 0xBF) (h5 : 0x80 ≤ b2) (h6 : b2 ≤ 0xBF)
    (hsep : ¬ (c = 0xE2 ∧ b1 = 0x80 ∧ (b2 = 0xA8 ∨ b2 = 0xA9))) :
    appendStringFrom 0 true (c :: b1 :: b2 :: t) = [c, b1, b2] ++ appendStringFrom 0 true t := by
  have hd := decodeRune_three c b1 b2 t h1 h2 hlo hhi h3 h4 h5 h6
  simp only [appendStringFrom]
  rw [if_neg (by omega), hd]
  simp only [RuneError]
  rw [if_neg (by omega), if_neg (by omega)]
  simp [appendStringFrom]

theorem appendString_separator (b2 : Nat) (t : Bytes) (h : b2 = 0xA8 ∨ b2 = 0xA9) :
    appendStringFrom 0 true (0xE2 :: 0x80 :: b2 :: t)
      = [92, 117, 50, 48, 50, hexDigit (b2 % 16)] ++ appendStringFrom 0 true t := by
  have hd := decodeRune_three 0xE2 0x80 b2 t (by omega) (by omega) (by omega) (by omega)
    (by omega) (by omega) (by omega) (by omega)
  simp only [appendStringFrom]
  rw [if_neg (by omega), hd]
  simp only [RuneError]
  rw [if_neg (by omega), if_pos (by omega)]
  have hm : (0xE2 % 16 * 4096 + 0x80 % 64 * 64 + b2 % 64) % 16 = b2 % 16 := by omega
  rw [hm]
  simp [appendStringFrom, appendStringFrom_zero false t]

theorem appendString_four (c b1 b2 b3 : Nat) (t : Bytes) (h1 : 0xF0 ≤ c) (h2 : c ≤ 0xF4)
    (hlo : c = 0xF0 → 0x90 ≤ b1) (hhi : c = 0xF4 → b1 ≤ 0x8F)
    (h3 : 0x80 ≤ b1) (h4 : b1 ≤ 0xBF) (h5 : 0x80 ≤ b2) (h6 : b2 ≤ 0xBF)
    (h7 : 0x80 ≤ b3) (h8 : b3 ≤ 0xBF) :
    appendStringFrom 0 true (c :: b1 :: b2 :: b3 :: t)
      = [c, b1, b2, b3] ++ appendStringFrom 0 true t := by
  have hd := decodeRune_four c b1 b2 b3 t h1 h2 hlo hhi h3 h4 h5 h6 h7 h8
  simp only [appendStringFrom]
  rw [if_neg (by omega), hd]
  simp only [RuneError]
  rw [if_neg (by omega), if_neg (by omega)]
  simp [appendStringFrom]

theorem chunk_separator (b2 : Nat) (h : b2 = 0xA8 ∨ b2 = 0xA9) :
    EncodesChunk [92, 117, 50, 48, 50, hexDigit (b2 % 16)] [0xE2, 0x80, b2] := by
  have hc := chunk_u4 50 48 50 (hexDigit (b2 % 16)) 2 0 2 (b2 % 16) rfl rfl rfl
    (hexVal_hexDigit _ (by omega)) (by omega)
  have he : encodeRune (2 * 4096 + 0 * 256 + 2 * 16 + b2 % 16) = [0xE2, 0x80, b2] := by
    rcases h with h | h <;> subst h <;> rfl
  rwa [he] at hc

/-- The string encoder writes a valid string chunk by chunk: the first rune
of the string is a chunk that the scanner and `unquote` read back. -/
theorem first_chunk (c : Nat) (t : Bytes) (hv : validUTF8 (c :: t) = true) :
    ∃ enc dec t', c :: t = dec ++ t' ∧ 0 < dec.length ∧
      appendStringFrom 0 true (c :: t) = enc ++ appendStringFrom 0 true t' ∧
      EncodesChunk enc dec ∧ validUTF8 t' = true := by
  unfold validUTF8 at hv
  simp only [validUTF8From] at hv
  by_cases hc : c < 0x80
  · rw [if_pos hc] at hv
    by_cases hs : htmlSafe c = true
    · refine ⟨[c], [c], t, rfl, by simp, ?_, ?_, hv⟩
      · simp [appendStringFrom, hc, hs]
      · simp only [htmlSafe, Bool.decide_and, Bool.and_eq_true, decide_eq_true_eq] at hs
        exact chunk_plain c (by omega) (by omega) (by omega) hc
    · have hs' : htmlSafe c = false := by simpa using hs
      refine ⟨escapeByte c, [c], t, rfl, by simp, ?_, chunk_escapeByte c hc hs', hv⟩
      simp [appendStringFrom, hc, hs']
  · rw [if_neg hc] at hv
    by_cases h1 : (decodeRune (c :: t)).2 = 1
    · rw [if_pos h1] at hv; simp at hv
    · rw [if_neg h1] at hv
      rcases decodeRune_cases c t hc h1 with ⟨b1, t', rfl, p1, p2, p3, p4⟩ |
        ⟨b1, b2, t', rfl, p1, p2, plo, phi, p3, p4, p5, p6⟩ |
        ⟨b1, b2, b3, t', rfl, p1, p2, plo, phi, p3, p4, p5, p6, p7, p8⟩
      · rw [decodeRune_two c b1 t' p1 p2 p3 p4] at hv
        simp only [Nat.add_one_sub_one, validUTF8From] at hv
        exact ⟨[c, b1], [c, b1], t', rfl, by simp, appendString_two c b1 t' p1 p2 p3 p4,
          chunk_two c b1 p1 p2 p3 p4, hv⟩
      · rw [decodeRune_three c b1 b2 t' p1 p2 plo phi p3 p4 p5 p6] at hv
        simp only [Nat.add_one_sub_one, validUTF8From] at hv
        by_cases hsep : c = 0xE2 ∧ b1 = 0x80 ∧ (b2 = 0xA8 ∨ b2 = 0xA9)
        · obtain ⟨rfl, rfl, hb2⟩ := hsep
          exact ⟨[92, 117, 50, 48, 50, hexDigit (b2 % 16)], [0xE2, 0x80, b2], t', rfl, by simp,
            appendString_separator b2 t' hb2, chunk_separator b2 hb2, hv⟩
        · exact ⟨[c, b1, b2], [c, b1, b2], t', rfl, by simp,
            appendString_three c b1 b2 t' p1 p2 plo phi p3 p4 p5 p6 hsep,
            chunk_three c b1 b2 p1 p2 plo phi p3 p4 p5 p6, hv⟩
      · rw [decodeRune_four c b1 b2 b3 t' p1 p2 plo phi p3 p4 p5 p6 p7 p8] at hv
        simp only [Nat.add_one_sub_one, validUTF8From] at hv
        exact ⟨[c, b1, b2, b3], [c, b1, b2, b3], t', rfl, by simp,
          appendString_four c b1 b2 b3 t' p1 p2 plo phi p3 p4 p5 p6 p7 p8,
          chunk_four c b1 b2 b3 p1 p2 plo phi p3 p4 p5 p6 p7 p8, hv⟩

theorem string_roundtrip_aux (n : Nat) : ∀ s : Bytes, s.length ≤ n → validUTF8 s = true →
    (∀ rest, scanStringFrom .inString (appendStringFrom 0 true s ++ 34 :: rest)
      = some (appendStringFrom 0 true s, rest)) ∧
    unquoteFrom 0 (appendStringFrom 0 true s) = s := by
  induction n with
  | zero =>
    intro s hl _
    have : s = [] := List.length_eq_zero.mp (by omega)
    subst this
    exact ⟨fun rest => by simp [appendStringFrom, scanStringFrom], by simp [appendStringFrom, unquoteFrom]⟩
  | succ n ih =>
    intro s hl hv
    cases s with
    | nil =>
      exact ⟨fun rest => by simp [appendStringFrom, scanStringFrom],
        by simp [appendStringFrom, unquoteFrom]⟩
    | cons c t =>
      obtain ⟨enc, dec, t', hs, hpos, hE, ⟨hscan, hunq⟩, hv'⟩ := first_chunk c t hv
      have hlen : t'.length ≤ n := by
        have := congrArg List.length hs
        simp only [List.length_cons, List.length_append] at this hl
        omega
      obtain ⟨ih1, ih2⟩ := ih t' hlen hv'
      refine ⟨?_, ?_⟩
      · intro rest
        rw [hE, List.append_assoc]
        exact hscan _ _ _ (ih1 rest)
      · rw [hE, hunq, ih2, hs]

/-- The scanner reads the body of an encoded string up to its closing quote,
and `unquote` gives back the string, when the string is valid UTF-8. -/
theorem string_roundtrip (s : Bytes) (hv : validUTF8 s = true) :
    (∀ rest, scanString (appendStringFrom 0 true s ++ 34 :: rest)
      = some (appendStringFrom 0 true s, rest)) ∧
    unquote (appendStringFrom 0 true s) = s :=
  string_roundtrip_aux s.length s (Nat.le_refl _) hv

/-! ## Maps in key order, and the steps of the parser -/

theorem bytesLt_irrefl (k : Bytes) : bytesLt k k = false := by
  induction k with
  | nil => rfl
  | cons x xs ih => simp [bytesLt, ih]

theorem bytesLt_asymm : ∀ (a b : Bytes), bytesLt a b = true → bytesLt b a = false := by
  intro a
  induction a with
  | nil =>
    intro b h
    cases b with
    | nil => rfl
    | cons y ys => rfl
  | cons x xs ih =>
    intro b h
    cases b with
    | nil => simp [bytesLt] at h
    | cons y ys =>
      simp only [bytesLt] at h ⊢
      split_ifs at h with h1 h2
      · rw [if_neg (by omega), if_pos h1]
      · have hxy : x = y := by omega
        rw [if_neg (by omega), if_neg (by omega)]
        exact ih ys h

theorem mapSet_append {α : Type} (k : Bytes) (v : α) : ∀ m : List (Bytes × α),
    (∀ p ∈ m, bytesLt p.1 k = true) → mapSet m k v = m ++ [(k, v)] := by
  intro m
  induction m with
  | nil => intro _; rfl
  | cons p rest ih =>
    intro h
    obtain ⟨k1, v1⟩ := p
    have h1 : bytesLt k1 k = true := h (k1, v1) (List.mem_cons_self _ _)
    have hne : ¬ k = k1 := by
      intro he; subst he; rw [bytesLt_irrefl] at h1; exact Bool.false_ne_true h1
    have hlt : bytesLt k k1 = false := bytesLt_asymm _ _ h1
    simp only [mapSet, if_neg hne, hlt, Bool.false_eq_true, if_false, List.cons_append]
    rw [ih (fun p hp => h p (List.mem_cons_of_mem _ hp))]

theorem foldl_mapSet_sorted {α : Type} : ∀ (kvs acc : List (Bytes × α)),
    (∀ p ∈ acc, ∀ q ∈ kvs, bytesLt p.1 q.1 = true) → sortedKeys kvs = true →
    kvs.foldl (fun m kv => mapSet m kv.1 kv.2) acc = acc ++ kvs := by
  intro kvs
  induction kvs with
  | nil => intro acc _ _; simp
  | cons q rest ih =>
    intro acc hacc hs
    obtain ⟨k, v⟩ := q
    simp only [sortedKeys, Bool.and_eq_true, List.all_eq_true] at hs
    simp only [List.foldl_cons]
    rw [mapSet_append k v acc (fun p hp => hacc p hp (k, v) (List.mem_cons_self _ _))]
    rw [ih (acc ++ [(k, v)]) ?_ hs.2]
    · simp
    · intro p hp q hq
      rcases List.mem_append.mp hp with hp | hp
      · exact hacc p hp q (List.mem_cons_of_mem _ hq)
      · simp only [List.mem_singleton] at hp
        subst hp
        exact hs.1 q hq

theorem sortedByKey_of_sorted {α : Type} (kvs : List (Bytes × α)) (h : sortedKeys kvs = true) :
    sortedByKey kvs = kvs := by
  unfold sortedByKey
  rw [foldl_mapSet_sorted kvs [] (fun p hp => by simp at hp) h]
  simp

theorem sortedKeys_map {α β : Type} (f : α → β) : ∀ kvs : List (Bytes × α),
    sortedKeys (kvs.map (fun kv => (kv.1, f kv.2))) = sortedKeys kvs := by
  intro kvs
  induction kvs with
  | nil => rfl
  | cons q rest ih =>
    obtain ⟨k, v⟩ := q
    have hall : ∀ l : List (Bytes × α),
        (l.map (fun kv => (kv.1, f kv.2))).all (fun kv => bytesLt k kv.1)
          = l.all (fun kv => bytesLt k kv.1) := by
      intro l
      induction l with
      | nil => rfl
      | cons a l ihl => simp only [List.map_cons, List.all_cons, ihl]
    simp only [List.map_cons, sortedKeys, ih, hall]

theorem encodeMembers_eq_map (fmt : Float64 → Bytes) : ∀ kvs : List (Bytes × Value),
    encodeMembers fmt kvs = kvs.map (fun kv => (kv.1, encodeValue fmt kv.2)) := by
  intro kvs
  induction kvs with
  | nil => simp [encodeMembers]
  | cons q rest ih =>
    obtain ⟨k, v⟩ := q
    simp [encodeMembers, ih]

theorem objectInterface_eq_foldl : ∀ (ms : List (Bytes × Json)) (acc : List (Bytes × Value)),
    objectInterface ms acc
      = (ms.map (fun p => (unquote p.1, valueInterface p.2))).foldl
          (fun m kv => mapSet m kv.1 kv.2) acc := by
  intro ms
  induction ms with
  | nil => intro acc; simp [objectInterface]
  | cons p rest ih =>
    intro acc
    obtain ⟨k, j⟩ := p
    simp [objectInterface, ih]

theorem skipSpace_cons (c : Nat) (t : Bytes) (h : isSpace c = false) :
    skipSpace (c :: t) = c :: t := by
  simp [skipSpace, h]

theorem valueStart_facts (c : Nat) (h : valueStart c = true) :
    isSpace c = false ∧ c ≠ 93 ∧ c ≠ 125 ∧ c ≠ 44 := by
  simp only [valueStart, isDigit, Bool.decide_or, Bool.decide_and, Bool.or_eq_true,
    Bool.and_eq_true, decide_eq_true_eq] at h
  simp only [isSpace, Bool.decide_or, Bool.or_eq_false_iff, decide_eq_false_iff_not]
  omega

theorem scanNumber_head (bs lit r : Bytes) (h : scanNumber bs = some (lit, r)) :
    ∃ c t, bs = c :: t ∧ (c = 45 ∨ isDigit c = true) := by
  cases bs with
  | nil => simp [scanNumber, scanSign, scanInt] at h
  | cons c t =>
    refine ⟨c, t, rfl, ?_⟩
    by_cases hc : c = 45
    · exact Or.inl hc
    · right
      by_cases hd : isDigit c = true
      · exact hd
      · exfalso
        have h48 : c ≠ 48 := by
          intro h48; subst h48; exact hd rfl
        simp [scanNumber, scanSign, hc, scanInt, h48, hd] at h

theorem parseValue_null (F d : Nat) (rest : Bytes) :
    parseValue (F + 1) d (110 :: 117 :: 108 :: 108 :: rest) = .ok .null rest := by
  simp [parseValue, expectBytes]

theorem parseValue_true (F d : Nat) (rest : Bytes) :
    parseValue (F + 1) d (116 :: 114 :: 117 :: 101 :: rest) = .ok (.bool true) rest := by
  simp [parseValue, expectBytes]

theorem parseValue_false (F d : Nat) (rest : Bytes) :
    parseValue (F + 1) d (102 :: 97 :: 108 :: 115 :: 101 :: rest) = .ok (.bool false) rest := by
  simp [parseValue, expectBytes]

theorem parseValue_string (F d : Nat) (R raw rest : Bytes) (h : scanString R = some (raw, rest)) :
    parseValue (F + 1) d (34 :: R) = .ok (.string raw) rest := by
  simp [parseValue, h]

theorem parseValue_number (F d c : Nat) (t lit rest : Bytes) (hc : c = 45 ∨ isDigit c = true)
    (h : scanNumber (c :: t) = some (lit, rest)) :
    parseValue (F + 1) d (c :: t) = .ok (.number lit) rest := by
  have hr : c = 45 ∨ (48 ≤ c ∧ c ≤ 57) := by
    simpa [isDigit] using hc
  simp only [parseValue]
  rw [if_neg (by omega), if_neg (by omega), if_neg (by omega), if_neg (by omega),
    if_neg (by omega), if_neg (by omega), if_pos hc, h]

theorem parseValue_array_empty (F d : Nat) (rest : Bytes) (hd : d < maxNestingDepth) :
    parseValue (F + 1) d (91 :: 93 :: rest) = .ok (.array []) rest := by
  have : ¬ maxNestingDepth ≤ d := by omega
  simp [parseValue, this, skipSpace, isSpace]

theorem parseValue_object_empty (F d : Nat) (rest : Bytes) (hd : d < maxNestingDepth) :
    parseValue (F + 1) d (123 :: 125 :: rest) = .ok (.object []) rest := by
  have : ¬ maxNestingDepth ≤ d := by omega
  simp [parseValue, this, skipSpace, isSpace]

theorem parseValue_array (F d c : Nat) (t : Bytes) (es : List Json) (rest : Bytes)
    (hd : d < maxNestingDepth) (hc : valueStart c = true)
    (h : parseElems F (d + 1) (c :: t) = .ok es rest) :
    parseValue (F + 1) d (91 :: c :: t) = .ok (.array es) rest := by
  have hnd : ¬ maxNestingDepth ≤ d := by omega
  obtain ⟨hsp, h93, _, _⟩ := valueStart_facts c hc
  simp only [parseValue]
  rw [if_neg (by omega), if_pos trivial, if_neg hnd, skipSpace_cons c t hsp]
  split
  · rename_i heq
    simp only [List.cons.injEq] at heq
    omega
  · rw [h]

theorem parseValue_object (F d : Nat) (t : Bytes) (ms : List (Bytes × Json)) (rest : Bytes)
    (hd : d < maxNestingDepth)
    (h : parseMembers F (d + 1) (34 :: t) = .ok ms rest) :
    parseValue (F + 1) d (123 :: 34 :: t) = .ok (.object ms) rest := by
  have hnd : ¬ maxNestingDepth ≤ d := by omega
  simp only [parseValue]
  rw [if_pos trivial, if_neg hnd, skipSpace_cons 34 t rfl]
  split
  · rename_i heq
    simp only [List.cons.injEq] at heq
    omega
  · rw [h]

/-! ## The decoder reads back what the encoder writes -/

theorem skipSpace_of_start (c : Nat) (t : Bytes) (h : valueStart c = true) :
    skipSpace (c :: t) = c :: t :=
  skipSpace_cons c t (valueStart_facts c h).1

theorem formatFloat_head (ff : FloatFormat) (f : Float64) :
    ∃ c t, ff.format f = c :: t ∧ (c = 45 ∨ isDigit c = true) := by
  have h := ff.literal f [] rfl
  obtain ⟨c, t, hct, hc⟩ := scanNumber_head _ _ _ h
  rw [List.append_nil] at hct
  exact ⟨c, t, hct, hc⟩

theorem encodeValue_head (ff : FloatFormat) (n : Nat) (v : Value)
    (h : wellFormed ff.format n v = true) :
    ∃ c t, encodeValue ff.format v = c :: t ∧ valueStart c = true := by
  cases v with
  | null => exact ⟨110, _, rfl, rfl⟩
  | bool b => cases b <;> exact ⟨_, _, rfl, rfl⟩
  | number f =>
    obtain ⟨c, t, hct, hc⟩ := formatFloat_head ff f
    refine ⟨c, t, by simpa [encodeValue] using hct, ?_⟩
    rcases hc with hc | hc
    · subst hc; rfl
    · simp [valueStart, hc]
  | string s => exact ⟨34, _, rfl, rfl⟩
  | array xs =>
    exact ⟨91, joinComma (encodeElems ff.format xs) ++ [93], by simp [encodeValue], rfl⟩
  | object kvs =>
    exact ⟨123, joinComma ((sortedByKey (encodeMembers ff.format kvs)).map
      (fun kv => encodeString kv.1 ++ [58] ++ kv.2)) ++ [125],
      by simp [encodeValue, encodeFields], rfl⟩
  | unsupported => simp [wellFormed] at h

theorem joinComma_cons (a : Bytes) (l : List Bytes) : ∃ tail, joinComma (a :: l) = a ++ tail := by
  cases l with
  | nil => exact ⟨[], by simp [joinComma]⟩
  | cons b l => exact ⟨44 :: joinComma (b :: l), by simp [joinComma]⟩

theorem roundtrip_scalar (ff : FloatFormat) (n : Nat) (v : Value)
    (hv : wellFormed ff.format n v = true)
    (hs : (∀ xs, v ≠ .array xs) ∧ (∀ kvs, v ≠ .object kvs))
    (d F : Nat) (rest : Bytes) (hrest : delimited rest = true)
    (hF : 2 * (encodeValue ff.format v ++ rest).length + 1 ≤ F) :
    ∃ j, parseValue F d (encodeValue ff.format v ++ rest) = .ok j rest ∧
      valueInterface j = v ∧ rangeError j = false := by
  obtain ⟨F', rfl⟩ : ∃ F', F = F' + 1 := ⟨F - 1, by omega⟩
  cases v with
  | null => exact ⟨.null, parseValue_null F' d rest, rfl, rfl⟩
  | bool b =>
    cases b
    · exact ⟨.bool false, parseValue_false F' d rest, rfl, rfl⟩
    · exact ⟨.bool true, parseValue_true F' d rest, rfl, rfl⟩
  | number f =>
    have hc : convertNumber (ff.format f) = some f := by simpa [wellFormed] using hv
    obtain ⟨c, t, hct, hcd⟩ := formatFloat_head ff f
    have hscan := ff.literal f rest hrest
    refine ⟨.number (ff.format f), ?_, ?_, ?_⟩
    · simp only [encodeValue]
      rw [hct] at hscan ⊢
      exact parseValue_number F' d c (t ++ rest) _ rest hcd hscan
    · simp [valueInterface, hc]
    · simp [rangeError, hc]
  | string s =>
    have hvs : validUTF8 s = true := by simpa [wellFormed] using hv
    obtain ⟨h1, h2⟩ := string_roundtrip s hvs
    refine ⟨.string (appendStringFrom 0 true s), ?_, ?_, rfl⟩
    · have : encodeValue ff.format (.string s) ++ rest
          = 34 :: (appendStringFrom 0 true s ++ 34 :: rest) := by
        simp [encodeValue, encodeString]
      rw [this]
      exact parseValue_string F' d _ _ rest (h1 rest)
    · simp [valueInterface, h2]
  | array xs => exact absurd rfl (hs.1 xs)
  | object kvs => exact absurd rfl (hs.2 kvs)
  | unsupported => simp [wellFormed] at hv

theorem roundtrip_elems (ff : FloatFormat) (n : Nat) (HV : ReadsBack ff n) :
    ∀ xs : List Value, xs ≠ [] → wellFormedElems ff.format n xs = true →
    ∀ d F rest, d + n ≤ maxNestingDepth →
    2 * (joinComma (encodeElems ff.format xs) ++ 93 :: rest).length + 2 ≤ F →
    ∃ js, parseElems F d (joinComma (encodeElems ff.format xs) ++ 93 :: rest) = .ok js rest ∧
      arrayInterface js = xs ∧ rangeErrorElems js = false := by
  intro xs
  induction xs with
  | nil => intro h; exact absurd rfl h
  | cons x xs ih =>
    intro _ hwf d F rest hd hF
    obtain ⟨F', rfl⟩ : ∃ F', F = F' + 1 := ⟨F - 1, by omega⟩
    simp only [wellFormedElems, Bool.and_eq_true] at hwf
    obtain ⟨hx, hxs⟩ := hwf
    cases xs with
    | nil =>
      simp only [encodeElems, joinComma] at hF ⊢
      obtain ⟨j, hj, hj1, hj2⟩ := HV x hx d F' (93 :: rest) hd rfl (by omega)
      refine ⟨[j], ?_, by simp [arrayInterface, hj1], by simp [rangeErrorElems, hj2]⟩
      simp only [parseElems, hj]
      simp [skipSpace, isSpace]
    | cons y ys =>
      have hJ : joinComma (encodeElems ff.format (x :: y :: ys)) ++ 93 :: rest
          = encodeValue ff.format x
            ++ 44 :: (joinComma (encodeElems ff.format (y :: ys)) ++ 93 :: rest) := by
        simp [encodeElems, joinComma]
      rw [hJ] at hF ⊢
      have hlen : 2 * (joinComma (encodeElems ff.format (y :: ys)) ++ 93 :: rest).length + 2
          ≤ F' := by
        simp only [List.length_append, List.length_cons] at hF ⊢
        omega
      obtain ⟨j, hj, hj1, hj2⟩ := HV x hx d F'
        (44 :: (joinComma (encodeElems ff.format (y :: ys)) ++ 93 :: rest)) hd rfl (by omega)
      obtain ⟨js, hjs, hjs1, hjs2⟩ := ih (by simp) hxs d F' rest hd hlen
      -- the next element starts with a byte that is no white space
      have hy : wellFormed ff.format n y = true := by
        simp only [wellFormedElems, Bool.and_eq_true] at hxs; exact hxs.1
      obtain ⟨c, t, hct, hc⟩ := encodeValue_head ff n y hy
      obtain ⟨tail, htail⟩ := joinComma_cons (encodeValue ff.format y) (encodeElems ff.format ys)
      have hnext : joinComma (encodeElems ff.format (y :: ys)) ++ 93 :: rest
          = c :: (t ++ tail ++ 93 :: rest) := by
        simp only [encodeElems]
        rw [htail, hct]
        simp
      refine ⟨j :: js, ?_, by simp [arrayInterface, hj1, hjs1],
        by simp [rangeErrorElems, hj2, hjs2]⟩
      simp only [parseElems, hj]
      have hs44 : skipSpace (44 :: (joinComma (encodeElems ff.format (y :: ys)) ++ 93 :: rest))
          = 44 :: (joinComma (encodeElems ff.format (y :: ys)) ++ 93 :: rest) :=
        skipSpace_cons _ _ rfl
      rw [hs44]
      simp only
      have hsn : skipSpace (joinComma (encodeElems ff.format (y :: ys)) ++ 93 :: rest)
          = joinComma (encodeElems ff.format (y :: ys)) ++ 93 :: rest := by
        rw [hnext]; exact skipSpace_of_start c _ hc
      rw [hsn, hjs]

theorem parseMembers_last (F d : Nat) (R key r1 : Bytes) (j : Json) (rest : Bytes)
    (hscan : scanString R = some (key, 58 :: r1)) (hsp : skipSpace r1 = r1)
    (hv : parseValue F d r1 = .ok j (125 :: rest)) :
    parseMembers (F + 1) d (34 :: R) = .ok [(key, j)] rest := by
  simp only [parseMembers, if_true, hscan]
  rw [skipSpace_cons 58 r1 rfl]
  simp only [hsp, hv]
  rw [skipSpace_cons 125 rest rfl]

theorem parseMembers_more (F d : Nat) (R key r1 : Bytes) (j : Json) (r3 : Bytes)
    (ms : List (Bytes × Json)) (rest : Bytes)
    (hscan : scanString R = some (key, 58 :: r1)) (hsp : skipSpace r1 = r1)
    (hv : parseValue F d r1 = .ok j (44 :: r3)) (hsp3 : skipSpace r3 = r3)
    (hm : parseMembers F d r3 = .ok ms rest) :
    parseMembers (F + 1) d (34 :: R) = .ok ((key, j) :: ms) rest := by
  simp only [parseMembers, if_true, hscan]
  rw [skipSpace_cons 58 r1 rfl]
  simp only [hsp, hv]
  rw [skipSpace_cons 44 r3 rfl]
  simp only [hsp3, hm]

theorem memberText_eq (k e : Bytes) (after : Bytes) :
    (encodeString k ++ [58] ++ e) ++ after
      = 34 :: (appendStringFrom 0 true k ++ 34 :: 58 :: (e ++ after)) := by
  simp [encodeString]

theorem roundtrip_members (ff : FloatFormat) (n : Nat) (HV : ReadsBack ff n) :
    ∀ kvs : List (Bytes × Value), kvs ≠ [] → wellFormedMembers ff.format n kvs = true →
    ∀ d F rest, d + n ≤ maxNestingDepth →
    2 * (joinComma ((encodeMembers ff.format kvs).map
          (fun kv => encodeString kv.1 ++ [58] ++ kv.2)) ++ 125 :: rest).length + 2 ≤ F →
    ∃ ms, parseMembers F d (joinComma ((encodeMembers ff.format kvs).map
          (fun kv => encodeString kv.1 ++ [58] ++ kv.2)) ++ 125 :: rest) = .ok ms rest ∧
      ms.map (fun p => (unquote p.1, valueInterface p.2)) = kvs ∧
      rangeErrorMembers ms = false := by
  intro kvs
  induction kvs with
  | nil => intro h; exact absurd rfl h
  | cons kv kvs ih =>
    intro _ hwf d F rest hd hF
    obtain ⟨k, x⟩ := kv
    obtain ⟨F', rfl⟩ : ∃ F', F = F' + 1 := ⟨F - 1, by omega⟩
    simp only [wellFormedMembers, Bool.and_eq_true] at hwf
    obtain ⟨⟨hk, hx⟩, hkvs⟩ := hwf
    obtain ⟨hscan, hunq⟩ := string_roundtrip k hk
    obtain ⟨c, t, hct, hc⟩ := encodeValue_head ff n x hx
    cases kvs with
    | nil =>
      have hJ : joinComma ((encodeMembers ff.format [(k, x)]).map
            (fun kv => encodeString kv.1 ++ [58] ++ kv.2)) ++ 125 :: rest
          = 34 :: (appendStringFrom 0 true k
              ++ 34 :: 58 :: (encodeValue ff.format x ++ 125 :: rest)) := by
        simp only [encodeMembers, List.map_cons, List.map_nil, joinComma]
        exact memberText_eq k _ _
      rw [hJ] at hF ⊢
      have hF' : 2 * (encodeValue ff.format x ++ 125 :: rest).length + 1 ≤ F' := by
        simp only [List.length_append, List.length_cons] at hF ⊢
        omega
      obtain ⟨j, hj, hj1, hj2⟩ := HV x hx d F' (125 :: rest) hd rfl hF'
      refine ⟨[(appendStringFrom 0 true k, j)], ?_, by simp [hunq, hj1],
        by simp [rangeErrorMembers, hj2]⟩
      refine parseMembers_last F' d _ _ _ j rest (hscan _) ?_ hj
      rw [hct]; exact skipSpace_of_start c _ hc
    | cons kv2 kvs2 =>
      obtain ⟨k2, x2⟩ := kv2
      have hJ : joinComma ((encodeMembers ff.format ((k, x) :: (k2, x2) :: kvs2)).map
            (fun kv => encodeString kv.1 ++ [58] ++ kv.2)) ++ 125 :: rest
          = 34 :: (appendStringFrom 0 true k
              ++ 34 :: 58 :: (encodeValue ff.format x
                ++ 44 :: (joinComma ((encodeMembers ff.format ((k2, x2) :: kvs2)).map
                    (fun kv => encodeString kv.1 ++ [58] ++ kv.2)) ++ 125 :: rest))) := by
        simp only [encodeMembers, List.map_cons, joinComma]
        rw [List.append_assoc, List.append_assoc, memberText_eq]
        simp
      rw [hJ] at hF ⊢
      have hF' : 2 * (encodeValue ff.format x
          ++ 44 :: (joinComma ((encodeMembers ff.format ((k2, x2) :: kvs2)).map
              (fun kv => encodeString kv.1 ++ [58] ++ kv.2)) ++ 125 :: rest)).length + 1 ≤ F' := by
        simp only [List.length_append, List.length_cons] at hF ⊢
        omega
      have hlen : 2 * (joinComma ((encodeMembers ff.format ((k2, x2) :: kvs2)).map
              (fun kv => encodeString kv.1 ++ [58] ++ kv.2)) ++ 125 :: rest).length + 2 ≤ F' := by
        simp only [List.length_append, List.length_cons] at hF ⊢
        omega
      obtain ⟨j, hj, hj1, hj2⟩ := HV x hx d F'
        (44 :: (joinComma ((encodeMembers ff.format ((k2, x2) :: kvs2)).map
              (fun kv => encodeString kv.1 ++ [58] ++ kv.2)) ++ 125 :: rest)) hd rfl hF'
      obtain ⟨ms, hms, hms1, hms2⟩ := ih (by simp) hkvs d F' rest hd hlen
      have hnext : ∃ t2, joinComma ((encodeMembers ff.format ((k2, x2) :: kvs2)).map
              (fun kv => encodeString kv.1 ++ [58] ++ kv.2)) ++ 125 :: rest = 34 :: t2 := by
        simp only [encodeMembers, List.map_cons]
        obtain ⟨tail, htail⟩ := joinComma_cons (encodeString k2 ++ [58] ++ encodeValue ff.format x2)
          ((encodeMembers ff.format kvs2).map (fun kv => encodeString kv.1 ++ [58] ++ kv.2))
        rw [htail]
        exact ⟨_, by simp [encodeString]; rfl⟩
      obtain ⟨t2, ht2⟩ := hnext
      refine ⟨(appendStringFrom 0 true k, j) :: ms, ?_, by simp [hunq, hj1, hms1],
        by simp [rangeErrorMembers, hj2, hms2]⟩
      refine parseMembers_more F' d _ _ _ j _ ms rest (hscan _) ?_ hj ?_ hms
      · rw [hct]; exact skipSpace_of_start c _ hc
      · rw [ht2]; exact skipSpace_cons 34 t2 rfl

/-- The parser reads the encoding of every well-formed value back. -/
theorem roundtrip_value (ff : FloatFormat) : ∀ n, ReadsBack ff n := by
  intro n
  induction n with
  | zero =>
    intro v hv d F rest hd hrest hF
    cases v with
    | array xs => simp [wellFormed] at hv
    | object kvs => simp [wellFormed] at hv
    | null => exact roundtrip_scalar ff 0 _ hv ⟨by simp, by simp⟩ d F rest hrest hF
    | bool b => exact roundtrip_scalar ff 0 _ hv ⟨by simp, by simp⟩ d F rest hrest hF
    | number f => exact roundtrip_scalar ff 0 _ hv ⟨by simp, by simp⟩ d F rest hrest hF
    | string s => exact roundtrip_scalar ff 0 _ hv ⟨by simp, by simp⟩ d F rest hrest hF
    | unsupported => simp [wellFormed] at hv
  | succ n ih =>
    intro v hv d F rest hd hrest hF
    cases v with
    | null => exact roundtrip_scalar ff _ _ hv ⟨by simp, by simp⟩ d F rest hrest hF
    | bool b => exact roundtrip_scalar ff _ _ hv ⟨by simp, by simp⟩ d F rest hrest hF
    | number f => exact roundtrip_scalar ff _ _ hv ⟨by simp, by simp⟩ d F rest hrest hF
    | string s => exact roundtrip_scalar ff _ _ hv ⟨by simp, by simp⟩ d F rest hrest hF
    | unsupported => simp [wellFormed] at hv
    | array xs =>
      obtain ⟨F', rfl⟩ : ∃ F', F = F' + 1 := ⟨F - 1, by omega⟩
      have hwf : wellFormedElems ff.format n xs = true := by simpa [wellFormed] using hv
      have hdl : d < maxNestingDepth := by omega
      cases xs with
      | nil =>
        refine ⟨.array [], ?_, by simp [valueInterface, arrayInterface],
          by simp [rangeError, rangeErrorElems]⟩
        have : encodeValue ff.format (.array []) ++ rest = 91 :: 93 :: rest := by
          simp [encodeValue, encodeElems, joinComma]
        rw [this]
        exact parseValue_array_empty F' d rest hdl
      | cons x xs =>
        have hE : encodeValue ff.format (.array (x :: xs)) ++ rest
            = 91 :: (joinComma (encodeElems ff.format (x :: xs)) ++ 93 :: rest) := by
          simp [encodeValue]
        rw [hE] at hF ⊢
        have hlen : 2 * (joinComma (encodeElems ff.format (x :: xs)) ++ 93 :: rest).length + 2
            ≤ F' := by
          simp only [List.length_append, List.length_cons] at hF ⊢
          omega
        obtain ⟨js, hjs, hjs1, hjs2⟩ :=
          roundtrip_elems ff n ih (x :: xs) (by simp) hwf (d + 1) F' rest (by omega) hlen
        have hx : wellFormed ff.format n x = true := by
          simp only [wellFormedElems, Bool.and_eq_true] at hwf; exact hwf.1
        obtain ⟨c, t, hct, hc⟩ := encodeValue_head ff n x hx
        obtain ⟨tail, htail⟩ := joinComma_cons (encodeValue ff.format x) (encodeElems ff.format xs)
        have hnext : joinComma (encodeElems ff.format (x :: xs)) ++ 93 :: rest
            = c :: (t ++ tail ++ 93 :: rest) := by
          simp only [encodeElems]
          rw [htail, hct]
          simp
        refine ⟨.array js, ?_, by simp [valueInterface, hjs1], by simp [rangeError, hjs2]⟩
        rw [hnext] at hjs ⊢
        exact parseValue_array F' d c _ js rest hdl hc hjs
    | object kvs =>
      obtain ⟨F', rfl⟩ : ∃ F', F = F' + 1 := ⟨F - 1, by omega⟩
      have hwf : sortedKeys kvs = true ∧ wellFormedMembers ff.format n kvs = true := by
        simpa [wellFormed] using hv
      have hdl : d < maxNestingDepth := by omega
      have hsorted : sortedByKey (encodeMembers ff.format kvs) = encodeMembers ff.format kvs := by
        apply sortedByKey_of_sorted
        rw [encodeMembers_eq_map, sortedKeys_map]
        exact hwf.1
      cases kvs with
      | nil =>
        refine ⟨.object [], ?_, by simp [valueInterface, objectInterface],
          by simp [rangeError, rangeErrorMembers]⟩
        have : encodeValue ff.format (.object []) ++ rest = 123 :: 125 :: rest := by
          simp [encodeValue, encodeMembers, sortedByKey, encodeFields, joinComma]
        rw [this]
        exact parseValue_object_empty F' d rest hdl
      | cons kv kvs =>
        have hE : encodeValue ff.format (.object (kv :: kvs)) ++ rest
            = 123 :: (joinComma ((encodeMembers ff.format (kv :: kvs)).map
                (fun kv => encodeString kv.1 ++ [58] ++ kv.2)) ++ 125 :: rest) := by
          simp only [encodeValue, hsorted, encodeFields]
          simp
        rw [hE] at hF ⊢
        have hlen : 2 * (joinComma ((encodeMembers ff.format (kv :: kvs)).map
                (fun kv => encodeString kv.1 ++ [58] ++ kv.2)) ++ 125 :: rest).length + 2
            ≤ F' := by
          simp only [List.length_append, List.length_cons] at hF ⊢
          omega
        obtain ⟨ms, hms, hms1, hms2⟩ :=
          roundtrip_members ff n ih (kv :: kvs) (by simp) hwf.2 (d + 1) F' rest (by omega) hlen
        have hnext : ∃ t2, joinComma ((encodeMembers ff.format (kv :: kvs)).map
                (fun kv => encodeString kv.1 ++ [58] ++ kv.2)) ++ 125 :: rest = 34 :: t2 := by
          obtain ⟨k, x⟩ := kv
          simp only [encodeMembers, List.map_cons]
          obtain ⟨tail, htail⟩ := joinComma_cons (encodeString k ++ [58] ++ encodeValue ff.format x)
            ((encodeMembers ff.format kvs).map (fun kv => encodeString kv.1 ++ [58] ++ kv.2))
          rw [htail]
          exact ⟨_, by simp [encodeString]; rfl⟩
        obtain ⟨t2, ht2⟩ := hnext
        refine ⟨.object ms, ?_, ?_, by simp [rangeError, hms2]⟩
        · rw [ht2] at hms ⊢
          exact parseValue_object F' d t2 ms rest hdl hms
        · simp only [valueInterface, objectInterface_eq_foldl, hms1]
          have := sortedByKey_of_sorted (kv :: kvs) hwf.1
          unfold sortedByKey at this
          rw [this]

/-! ## Decoding an encoded value, an encoded gist and an array into a slice -/

/-- The decoder accepts the encoding of a well-formed value and reads the
value back. -/
theorem parse_encodeValue (ff : FloatFormat) (v : Value)
    (h : wellFormed ff.format maxNestingDepth v = true) :
    ∃ j, parse (encodeValue ff.format v) = some j ∧ valueInterface j = v ∧
      rangeError j = false := by
  obtain ⟨c, t, hct, hc⟩ := encodeValue_head ff _ v h
  obtain ⟨j, hj, hj1, hj2⟩ := roundtrip_value ff maxNestingDepth v h 0
    (2 * (encodeValue ff.format v).length + 1) [] (by omega) rfl (by simp)
  refine ⟨j, ?_, hj1, hj2⟩
  have hsp : skipSpace (encodeValue ff.format v) = encodeValue ff.format v := by
    rw [hct]; exact skipSpace_of_start c t hc
  rw [List.append_nil] at hj
  unfold parse
  rw [hsp, hj]
  rfl

theorem UnmarshalInterface_encodeValue (ff : FloatFormat) (v : Value)
    (h : wellFormed ff.format maxNestingDepth v = true) (old : Value) :
    UnmarshalInterface (encodeValue ff.format v) old = (v, none) := by
  obtain ⟨j, hj, hj1, hj2⟩ := parse_encodeValue ff v h
  simp [UnmarshalInterface, hj, storeValue_eq_valueInterface j old hj2, hj1, hj2]

theorem storeValue_of_inRange (j : Json) (old : Value)
    (h : ∀ lit, j = .number lit → convertNumber lit ≠ none) :
    storeValue j old = valueInterface j := by
  cases j with
  | number lit =>
    cases hc : convertNumber lit with
    | none => exact absurd hc (h lit rfl)
    | some f => simp [storeValue, valueInterface, hc]
  | null => rfl
  | bool b => rfl
  | string raw => rfl
  | array es => rfl
  | object ms => rfl

theorem arrayStore_of_inRange (es : List Json) : ∀ (backing : List Value),
    (∀ lit, Json.number lit ∈ es → convertNumber lit ≠ none) →
    (arrayStore es backing).1 = arrayInterface es := by
  induction es with
  | nil => intro backing _; simp [arrayStore, arrayInterface]
  | cons j js ih =>
    intro backing h
    simp only [arrayStore, arrayInterface, List.cons.injEq]
    refine ⟨storeValue_of_inRange j _ ?_, ih _ ?_⟩
    · intro lit hl
      exact h lit (by rw [hl]; exact List.mem_cons_self _ _)
    · intro lit hl
      exact h lit (List.mem_cons_of_mem _ hl)

theorem inRange_of_rangeErrorElems (es : List Json) (h : rangeErrorElems es = false) :
    ∀ lit, Json.number lit ∈ es → convertNumber lit ≠ none := by
  induction es with
  | nil => intro lit hl; cases hl
  | cons j js ih =>
    intro lit hl
    simp only [rangeErrorElems, Bool.or_eq_false_iff] at h
    rcases List.mem_cons.mp hl with hl | hl
    · subst hl
      intro hc
      simp [rangeError, hc] at h
    · exact ih h.2 lit hl

/-- A JSON array none of whose elements is a number literal out of the float64
range is decoded into a slice whose elements are those of the array, whatever
the slice held before. -/
theorem UnmarshalSlice_array (data : Bytes) (es : List Json)
    (h : parse data = some (.array es))
    (hr : ∀ lit, Json.number lit ∈ es → convertNumber lit ≠ none) (g : APIResponse) :
    ∃ spare, (UnmarshalSlice data g).1 = .slice (arrayInterface es) spare := by
  unfold UnmarshalSlice
  rw [h]
  cases es with
  | nil => exact ⟨[], rfl⟩
  | cons j js =>
    exact ⟨(arrayStore (j :: js) g.backing).2, by
      simp only [APIResponse.slice.injEq, and_true]
      exact arrayStore_of_inRange _ _ hr⟩

/-- Decoding the encoding of a well-formed sequence into a slice gives the
sequence, whatever the slice held before. -/
theorem UnmarshalSlice_encodeValue (ff : FloatFormat) (xs : List Value)
    (h : wellFormed ff.format maxNestingDepth (.array xs) = true) (g : APIResponse) :
    ∃ spare, (UnmarshalSlice (encodeValue ff.format (.array xs)) g).1 = .slice xs spare := by
  obtain ⟨j, hj, hj1, hj2⟩ := parse_encodeValue ff _ h
  cases j with
  | array es =>
    simp only [valueInterface, Value.array.injEq] at hj1
    simp only [rangeError] at hj2
    obtain ⟨spare, hs⟩ := UnmarshalSlice_array _ es hj (inRange_of_rangeErrorElems es hj2) g
    exact ⟨spare, by rw [hs, hj1]⟩
  | null => simp [valueInterface] at hj1
  | bool b => simp [valueInterface] at hj1
  | number lit =>
    simp only [valueInterface] at hj1
    split at hj1 <;> simp at hj1
  | string raw => simp [valueInterface] at hj1
  | object ms => simp [valueInterface] at hj1

theorem encodable_of_wellFormed (format : Float64 → Bytes) :
    ∀ (n : Nat) (v : Value), wellFormed format n v = true → encodable v = true := by
  intro n
  induction n with
  | zero =>
    intro v h
    cases v <;> simp_all [wellFormed, encodable]
  | succ n ih =>
    have hE : ∀ xs, wellFormedElems format n xs = true → encodableElems xs = true := by
      intro xs
      induction xs with
      | nil => intro _; rfl
      | cons x xs ihx =>
        intro h
        simp only [wellFormedElems, Bool.and_eq_true] at h
        simp [encodableElems, ih x h.1, ihx h.2]
    have hM : ∀ kvs, wellFormedMembers format n kvs = true → encodableMembers kvs = true := by
      intro kvs
      induction kvs with
      | nil => intro _; rfl
      | cons kv kvs ihx =>
        intro h
        obtain ⟨k, x⟩ := kv
        simp only [wellFormedMembers, Bool.and_eq_true] at h
        simp [encodableMembers, ih x h.1.2, ihx h.2]
    intro v h
    cases v with
    | null => rfl
    | bool b => rfl
    | number f => rfl
    | string s => rfl
    | unsupported => simp [wellFormed] at h
    | array xs =>
      simp only [encodable]
      exact hE xs (by simpa [wellFormed] using h)
    | object kvs =>
      simp only [encodable]
      have h2 : sortedKeys kvs = true ∧ wellFormedMembers format n kvs = true := by
        simpa [wellFormed] using h
      exact hM kvs h2.2

/-- The text `json.Marshal` writes for a gist it can encode. -/
theorem Marshal_gist (format : Float64 → Bytes) (gist : Gist) (h : encodable gist.Files = true) :
    Marshal format gist =
      (some (str "\x7b\"description\":" ++ encodeString gist.Description
        ++ str ",\"public\":" ++ (if gist.Public then str "true" else str "false")
        ++ str ",\"files\":" ++ encodeValue format gist.Files ++ str "\x7d"), none) := by
  simp only [Marshal, h, if_true, encodeFields_three]
  rfl

/-- A gist `json.Marshal` cannot encode gives no bytes. -/
theorem Marshal_unsupported (format : Float64 → Bytes) (gist : Gist)
    (h : encodable gist.Files = false) : (Marshal format gist).1 = none := by
  simp [Marshal, h]

/-- Decoding the text `json.Marshal` writes for a well-formed gist gives a map
with exactly the keys `description`, `files` and `public`, holding the values
of the gist. -/
theorem UnmarshalInterface_Marshal (ff : FloatFormat) (gist : Gist)
    (hd : validUTF8 gist.Description = true)
    (hf : wellFormed ff.format (maxNestingDepth - 1) gist.Files = true) (old : Value) :
    ∃ body, Marshal ff.format gist = (some body, none) ∧
      UnmarshalInterface body old =
        (.object [(str "description", .string gist.Description), (str "files", gist.Files),
          (str "public", .bool gist.Public)], none) := by
  have henc := encodable_of_wellFormed ff.format _ _ hf
  refine ⟨encodeFields
      [(str "description", encodeString gist.Description),
       (str "public", if gist.Public then str "true" else str "false"),
       (str "files", encodeValue ff.format gist.Files)],
    by simp only [Marshal, henc, if_true], ?_⟩
  have hwf : wellFormedMembers ff.format (maxNestingDepth - 1)
      [(str "description", .string gist.Description), (str "public", .bool gist.Public),
        (str "files", gist.Files)] = true := by
    have h1 : validUTF8 (str "description") = true := by decide
    have h2 : validUTF8 (str "public") = true := by decide
    have h3 : validUTF8 (str "files") = true := by decide
    simp [wellFormedMembers, wellFormed, h1, h2, h3, hd, hf]
  have hbool : (if gist.Public then str "true" else str "false")
      = encodeValue ff.format (.bool gist.Public) := by
    cases gist.Public <;> rfl
  have hbody : encodeFields
      [(str "description", encodeString gist.Description),
       (str "public", if gist.Public then str "true" else str "false"),
       (str "files", encodeValue ff.format gist.Files)]
      = 123 :: (joinComma ((encodeMembers ff.format
          [(str "description", .string gist.Description), (str "public", .bool gist.Public),
            (str "files", gist.Files)]).map (fun kv => encodeString kv.1 ++ [58] ++ kv.2))
          ++ 125 :: []) := by
    rw [hbool]
    rfl
  obtain ⟨ms, hms, hms1, hms2⟩ := roundtrip_members ff (maxNestingDepth - 1)
    (roundtrip_value ff _) _ (by simp) hwf 1 _ [] (by decide) (le_refl _)
  obtain ⟨t2, ht2⟩ : ∃ t2, joinComma ((encodeMembers ff.format
          [(str "description", .string gist.Description), (str "public", .bool gist.Public),
            (str "files", gist.Files)]).map (fun kv => encodeString kv.1 ++ [58] ++ kv.2))
          ++ 125 :: [] = 34 :: t2 := by
    simp only [encodeMembers, List.map_cons]
    obtain ⟨tail, htail⟩ := joinComma_cons
      (encodeString (str "description") ++ [58] ++ encodeValue ff.format (.string gist.Description))
      ((encodeMembers ff.format [(str "public", .bool gist.Public),
            (str "files", gist.Files)]).map (fun kv => encodeString kv.1 ++ [58] ++ kv.2))
    simp only [encodeMembers, List.map_cons] at htail
    rw [htail]
    exact ⟨_, by simp [encodeString]; rfl⟩
  have hparse : parse (encodeFields
      [(str "description", encodeString gist.Description),
       (str "public", if gist.Public then str "true" else str "false"),
       (str "files", encodeValue ff.format gist.Files)]) = some (.object ms) := by
    rw [hbody, ht2]
    rw [ht2] at hms
    unfold parse
    rw [skipSpace_cons 123 _ rfl]
    have hF : 2 * (123 :: 34 :: t2).length + 1
        = (2 * (34 :: t2).length + 2) + 1 := by
      simp only [List.length_cons]; omega
    rw [hF, parseValue_object _ 0 t2 ms [] (by decide) hms]
    rfl
  have hval : valueInterface (.object ms) =
      .object [(str "description", .string gist.Description), (str "files", gist.Files),
          (str "public", .bool gist.Public)] := by
    simp only [valueInterface, objectInterface_eq_foldl, hms1]
    rfl
  have hre : rangeError (.object ms) = false := by simpa [rangeError] using hms2
  simp only [UnmarshalInterface, hparse, storeValue_eq_valueInterface _ old hre, hval, hre]
  rfl

/-! ## Claims -/

set_option maxRecDepth 4000

theorem GoError.Is_self (e : GoError) : GoError.Is e e = true := by
  cases e <;> simp [GoError.Is]

/-- The encoder replaces a byte that is not valid UTF-8 by U+FFFD: the
description `\xff` is written as `\ufffd` and read back as the three bytes of
U+FFFD. -/
theorem Marshal_invalid_utf8 :
    Marshal stubFormat.format { Description := [255], Public := false, Files := .null }
      = (some (str "\x7b\"description\":\"\\ufffd\",\"public\":false,\"files\":null\x7d"), none) ∧
    UnmarshalInterface
        (str "\x7b\"description\":\"\\ufffd\",\"public\":false,\"files\":null\x7d") .null
      = (.object [(str "description", .string [239, 191, 189]), (str "files", .null),
          (str "public", .bool false)], none) :=
  ⟨rfl, rfl⟩

/-- The body `[1e999]` is a JSON array of one number literal. -/
theorem parse_out_of_range :
    parse (str "[1e999]") = some (.array [.number (str "1e999")]) := rfl

/-- Decoding `[1e999]` into a slice leaves in the first slot what it held. -/
theorem UnmarshalSlice_out_of_range (g : APIResponse) :
    (UnmarshalSlice (str "[1e999]") g).1 = .slice [g.backing.headD .null] g.backing.tail := by
  simp only [UnmarshalSlice, parse_out_of_range, arrayStore,
    storeValue_out_of_range _ _ convertNumber_examples.1]

/-- C1: for every method, URL, token and optional payload, `makeRequest`
hands to `client.Do` at most one request, exactly one when `http.NewRequest`
accepts the method and URL; that request carries the header
`Accept: application/vnd.github+json`, carries in addition
`Authorization: Bearer <token>` exactly when the token is not the empty
string, and carries no other header. -/
theorem makeRequest_request_headers (rt : Runtime) (requestType url token : Bytes)
    (payload : Option Bytes) (w : World) :
    (makeRequest rt requestType url token payload w).2.sent =
      w.sent ++
        (if rt.accepts requestType url = true then
          [{ Method := if requestType = [] then str "GET" else requestType
             URL := url
             Header := (str "Accept", [str "application/vnd.github+json"]) ::
               (if token = str "" then [] else [(str "Authorization", [str "Bearer " ++ token])])
             Body := payload }]
        else []) := by
  cases h : rt.accepts requestType url with
  | false => simp [makeRequest_rejected _ _ _ _ _ _ h]
  | true =>
    rw [makeRequest_accepted _ _ _ _ _ _ h]
    cases rt.Do w.sent (builtRequest requestType url token payload) <;> simp [builtRequest]

/-- C2, as stated, fails: with a transport that fails with
`connectionRefused`, `GetPublicRepositories` returns an error that is not
`connectionRefused`: it is the error built by
`fmt.Errorf("request failed: %w", err)` around the `*url.Error` of
`client.Do`, with another message, and it unwraps to the `*url.Error`. -/
theorem GetPublicRepositories_error_is_wrapped :
    ∃ err, (GetPublicRepositories (failWith connectionRefused) World.init).1
        = .returned (.nil, some err) ∧
      err.Error = str ("request failed: Get \"https://api.github.com/repositories\": "
        ++ "dial tcp 140.82.112.5:443: connect: connection refused") ∧
      err.Unwrap = some (.urlError (str "Get") (str "\"https://api.github.com/repositories\"")
        connectionRefused) ∧
      err ≠ connectionRefused ∧
      err.Error ≠ connectionRefused.Error ∧
      err.Unwrap ≠ some connectionRefused :=
  ⟨_, rfl, rfl, rfl, by decide, by decide, by decide⟩

/-- C2, amended: when the transport fails every request with the error `e`,
so that `client.Do` returns the `*url.Error` with the operation of the
method (`Get`, `Post`), the quoted URL and `e`, each of the seven facade
operations whose request `http.NewRequest` accepts returns the error of the
request helper unchanged, which wraps `e` without being `e`: the error that
`fmt.Errorf("request failed: %w", err)` builds around the `*url.Error`, with
the message `request failed: Get "<url>": <message of e>` (`Post` for
`CreateNewGist`), in which `errors.Is` finds `e`; together with no data: a
nil result for the JSON-returning operations and the empty string for
`GetGistContent`, whatever the shared decode target held before. -/
theorem facade_returns_wrapped_transport_error (rt : Runtime) (e : GoError)
    (hfail : ∀ history request, ∃ quotedURL, rt.Do history request
      = .error { Op := urlErrorOp request.Method, QuotedURL := quotedURL, Err := e })
    (w : World) (url token : Bytes) (gist : Gist) :
    (∀ msg op quotedURL,
      GoError.Is (.wrapError msg (.urlError op quotedURL e)) e = true) ∧
    (rt.accepts (str "GET") (str "https://api.github.com/repositories") = true →
      ∃ quotedURL, (GetPublicRepositories rt w).1
        = .returned (.nil, some (.wrapError
            (str "request failed: Get " ++ quotedURL ++ str ": " ++ e.Error)
            (.urlError (str "Get") quotedURL e)))) ∧
    (rt.accepts (str "GET") (str "https://api.github.com/gists/public") = true →
      ∃ quotedURL, (GetPublicGists rt w).1
        = .returned (.nil, some (.wrapError
            (str "request failed: Get " ++ quotedURL ++ str ": " ++ e.Error)
            (.urlError (str "Get") quotedURL e)))) ∧
    (rt.accepts (str "GET") (str "https://api.github.com/user/repos?type=private") = true →
      ∃ quotedURL, (GetRepositoriesForAuthenticatedUser rt token w).1
        = .returned (.nil, some (.wrapError
            (str "request failed: Get " ++ quotedURL ++ str ": " ++ e.Error)
            (.urlError (str "Get") quotedURL e)))) ∧
    (rt.accepts (str "GET") (str "https://api.github.com/gists") = true →
      ∃ quotedURL, (GetGistsForAuthenticatedUser rt token w).1
        = .returned (.nil, some (.wrapError
            (str "request failed: Get " ++ quotedURL ++ str ": " ++ e.Error)
            (.urlError (str "Get") quotedURL e)))) ∧
    (rt.accepts (str "GET") url = true →
      ∃ quotedURL, (GetMoreInformationFromURL rt url token w).1
        = .returned (.nil, some (.wrapError
            (str "request failed: Get " ++ quotedURL ++ str ": " ++ e.Error)
            (.urlError (str "Get") quotedURL e)))) ∧
    (rt.accepts (str "GET") url = true →
      ∃ quotedURL, (GetGistContent rt url token w).1
        = .returned (str "", some (.wrapError
            (str "request failed: Get " ++ quotedURL ++ str ": " ++ e.Error)
            (.urlError (str "Get") quotedURL e)))) ∧
    (rt.accepts (str "POST") (str "https://api.github.com/gists") = true →
      ∃ quotedURL, (CreateNewGist rt gist token w).1
        = .returned (.null, some (.wrapError
            (str "request failed: Post " ++ quotedURL ++ str ": " ++ e.Error)
            (.urlError (str "Post") quotedURL e)))) := by
  have hget : ∀ (u t : Bytes), rt.accepts (str "GET") u = true →
      ∃ quotedURL, (GetMoreInformationFromURL rt u t w).1
        = .returned (.nil, some (.wrapError
            (str "request failed: Get " ++ quotedURL ++ str ": " ++ e.Error)
            (.urlError (str "Get") quotedURL e))) := by
    intro u t h
    obtain ⟨q, hq⟩ := hfail w.sent (builtRequest (str "GET") u t none)
    exact ⟨q, by rw [GetMoreInformationFromURL_error _ _ _ _ _ h hq]; rfl⟩
  refine ⟨?_, ?_, ?_, ?_, ?_, hget url token, ?_, ?_⟩
  · intro msg op quotedURL
    simp [GoError.Is, GoError.Is_self]
  · intro h
    rw [GetPublicRepositories_eq]
    exact hget _ _ h
  · intro h
    rw [GetPublicGists_eq]
    exact hget _ _ h
  · intro h
    rw [GetRepositoriesForAuthenticatedUser_eq]
    exact hget _ _ h
  · intro h
    rw [GetGistsForAuthenticatedUser_eq]
    exact hget _ _ h
  · intro h
    obtain ⟨q, hq⟩ := hfail w.sent (builtRequest (str "GET") url token none)
    exact ⟨q, by rw [GetGistContent_error _ _ _ _ _ h hq]; rfl⟩
  · intro h
    obtain ⟨q, hq⟩ := hfail w.sent (builtRequest (str "POST") (str "https://api.github.com/gists")
      token (Marshal rt.formatFloat.format gist).1)
    exact ⟨q, by rw [CreateNewGist_error _ _ _ _ _ h hq]; rfl⟩

/-- Witness of C2 amended: the transport that fails every request with
`connectionRefused`, the state of a program that has decoded one element
before, and the example gist. -/
theorem facade_returns_wrapped_transport_error_witness :
    (∃ quotedURL, (GetGistsForAuthenticatedUser (failWith connectionRefused) (str "tok")
        { githubResponse := .slice [.bool true] [], sent := [] }).1
      = .returned (.nil, some (.wrapError
          (str "request failed: Get " ++ quotedURL ++ str ": " ++ connectionRefused.Error)
          (.urlError (str "Get") quotedURL connectionRefused)))) ∧
    (∃ quotedURL, (CreateNewGist (failWith connectionRefused) exampleGist (str "tok")
        { githubResponse := .slice [.bool true] [], sent := [] }).1
      = .returned (.null, some (.wrapError
          (str "request failed: Post " ++ quotedURL ++ str ": " ++ connectionRefused.Error)
          (.urlError (str "Post") quotedURL connectionRefused)))) :=
  ⟨(facade_returns_wrapped_transport_error (failWith connectionRefused) connectionRefused
      (fun _ _ => ⟨_, rfl⟩) { githubResponse := .slice [.bool true] [], sent := [] }
      (str "https://api.github.com/gists/1") (str "tok") exampleGist).2.2.2.2.1 rfl,
   (facade_returns_wrapped_transport_error (failWith connectionRefused) connectionRefused
      (fun _ _ => ⟨_, rfl⟩) { githubResponse := .slice [.bool true] [], sent := [] }
      (str "https://api.github.com/gists/1") (str "tok") exampleGist).2.2.2.2.2.2.2 rfl⟩

/-- C3: when `http.NewRequest` accepts the request and the client answers it
with a response, `makeRequest`, and with it `MakeGetRequest` and
`MakePostRequest`, returns the bytes read from the response body with a nil
error; the status code has no part in the result: a runtime whose response
has the same body and any other status code gives the same result. -/
theorem makeRequest_returns_body (rt : Runtime) (requestType url token : Bytes)
    (payload : Option Bytes) (w : World) (response : Response)
    (hdo : ∀ request, rt.Do w.sent request = .ok response) :
    (rt.accepts requestType url = true →
      (makeRequest rt requestType url token payload w).1
        = .returned (some response.Body.data, none)) ∧
    (rt.accepts (str "GET") url = true →
      (MakeGetRequest rt url token w).1 = .returned (some response.Body.data, none)) ∧
    (rt.accepts (str "POST") url = true →
      (MakePostRequest rt url token payload w).1 = .returned (some response.Body.data, none)) ∧
    (∀ (rt2 : Runtime) (response2 : Response),
      (∀ request, rt2.Do w.sent request = .ok response2) →
      response2.Body = response.Body →
      rt.accepts requestType url = true → rt2.accepts requestType url = true →
      (makeRequest rt2 requestType url token payload w).1
        = (makeRequest rt requestType url token payload w).1) := by
  refine ⟨?_, ?_, ?_, ?_⟩
  · intro h
    rw [makeRequest_ok _ _ _ _ _ _ response h (hdo _)]
  · intro h
    rw [MakeGetRequest, makeRequest_ok _ _ _ _ _ _ response h (hdo _)]
  · intro h
    rw [MakePostRequest, makeRequest_ok _ _ _ _ _ _ response h (hdo _)]
  · intro rt2 response2 hdo2 hbody h h2
    rw [makeRequest_ok _ _ _ _ _ _ response h (hdo _),
      makeRequest_ok _ _ _ _ _ _ response2 h2 (hdo2 _), hbody]

/-- Witness of C3: a 200 response with body `ok`, and a 500 response with the
same body. -/
theorem makeRequest_returns_body_witness :
    (makeRequest (replyWith 200 (str "ok")) (str "GET") (str "https://api.github.com/gists")
        (str "tok") none World.init).1 = .returned (some (str "ok"), none) ∧
    (makeRequest (replyWith 500 (str "ok")) (str "GET") (str "https://api.github.com/gists")
        (str "tok") none World.init).1
      = (makeRequest (replyWith 200 (str "ok")) (str "GET") (str "https://api.github.com/gists")
        (str "tok") none World.init).1 :=
  ⟨(makeRequest_returns_body (replyWith 200 (str "ok")) (str "GET")
      (str "https://api.github.com/gists") (str "tok") none World.init
      { StatusCode := 200, Body := { data := str "ok", err := none } } (fun _ => rfl)).1 rfl,
   (makeRequest_returns_body (replyWith 200 (str "ok")) (str "GET")
      (str "https://api.github.com/gists") (str "tok") none World.init
      { StatusCode := 200, Body := { data := str "ok", err := none } } (fun _ => rfl)).2.2.2
      (replyWith 500 (str "ok")) { StatusCode := 500, Body := { data := str "ok", err := none } }
      (fun _ => rfl) rfl rfl rfl⟩

/-- C4: when `http.NewRequest` accepts the URL and the client answers with a
response, `GetGistContent` returns the bytes of the response body as a
string, unchanged, with a nil error, for every body (no JSON decoding takes
place); the shared variable `githubResponse` keeps its value, and the result
does not depend on that value. -/
theorem GetGistContent_returns_raw_body (rt : Runtime) (url token : Bytes) (w : World)
    (response : Response) (hacc : rt.accepts (str "GET") url = true)
    (hdo : ∀ request, rt.Do w.sent request = .ok response) :
    (GetGistContent rt url token w).1 = .returned (response.Body.data, none) ∧
    (GetGistContent rt url token w).2.githubResponse = w.githubResponse ∧
    (∀ g : APIResponse,
      (GetGistContent rt url token { w with githubResponse := g }).1
        = (GetGistContent rt url token w).1) := by
  refine ⟨?_, ?_, ?_⟩
  · rw [GetGistContent_ok _ _ _ _ response hacc (hdo _)]
  · rw [GetGistContent_ok _ _ _ _ response hacc (hdo _)]
  · intro g
    rw [GetGistContent_ok _ _ _ _ response hacc (hdo _),
      GetGistContent_ok _ _ _ { w with githubResponse := g } response hacc (hdo _)]

/-- Witness of C4: a body that is not JSON, in a state whose shared variable
holds a decoded element. -/
theorem GetGistContent_returns_raw_body_witness :
    (GetGistContent (replyWith 200 (str "package main // not JSON"))
        (str "https://gist.githubusercontent.com/raw/1") (str "")
        { githubResponse := .slice [.bool true] [], sent := [] }).1
      = .returned (str "package main // not JSON", none) :=
  (GetGistContent_returns_raw_body (replyWith 200 (str "package main // not JSON"))
    (str "https://gist.githubusercontent.com/raw/1") (str "")
    { githubResponse := .slice [.bool true] [], sent := [] }
    { StatusCode := 200, Body := { data := str "package main // not JSON", err := none } }
    rfl (fun _ => rfl)).1

/-- C5, as stated, fails: for a gist whose `Files` holds a value
`json.Marshal` rejects, the error of `json.Marshal` is discarded and the POST
request goes out with no body. -/
theorem CreateNewGist_unsupported_files_sends_no_body :
    Marshal stubFormat.format unsupportedGist
      = (none, some (.errorString (str "json: unsupported type"))) ∧
    (CreateNewGist (replyWith 201 (str "\x7b\"id\":\"1\"\x7d")) unsupportedGist (str "tok")
        World.init).2.sent =
      [{ Method := str "POST"
         URL := str "https://api.github.com/gists"
         Header := [(str "Accept", [str "application/vnd.github+json"]),
           (str "Authorization", [str "Bearer tok"])]
         Body := none }] :=
  ⟨rfl, rfl⟩

/-- C5, amended: for every gist whose `Files` value `json.Marshal` can encode
and every token, when `http.NewRequest` accepts the request, `CreateNewGist`
sends one request, with method `POST` and URL `https://api.github.com/gists`,
whose `Authorization` header is `Bearer <token>` when the token is not empty
and whose body is the JSON serialization of the gist, the text
`{"description":D,"public":P,"files":F}` with `D` the description as a JSON
string, `P` `true` or `false` and `F` the encoding of `gist.Files`.  When the
strings of the gist are valid UTF-8 and `Files` is well formed (its numbers
are written as literals that convert back, it is nested less than 10000
deep), decoding that body gives an object with exactly the keys
`description`, `files` and `public`, holding the description, `gist.Files`
itself and the boolean.  For the example gist and the token `tok` the header
is `Bearer tok`. -/
theorem CreateNewGist_request (rt : Runtime) (gist : Gist) (token : Bytes) (w : World)
    (hacc : rt.accepts (str "POST") (str "https://api.github.com/gists") = true)
    (henc : encodable gist.Files = true) :
    (∃ body,
      (CreateNewGist rt gist token w).2.sent =
        w.sent ++
          [{ Method := str "POST"
             URL := str "https://api.github.com/gists"
             Header := (str "Accept", [str "application/vnd.github+json"]) ::
               (if token = str "" then [] else [(str "Authorization", [str "Bearer " ++ token])])
             Body := some body }] ∧
      body = str "\x7b\"description\":" ++ encodeString gist.Description
        ++ str ",\"public\":" ++ (if gist.Public then str "true" else str "false")
        ++ str ",\"files\":" ++ encodeValue rt.formatFloat.format gist.Files ++ str "\x7d" ∧
      (validUTF8 gist.Description = true →
        wellFormed rt.formatFloat.format (maxNestingDepth - 1) gist.Files = true →
        UnmarshalInterface body .null =
          (.object [(str "description", .string gist.Description), (str "files", gist.Files),
            (str "public", .bool gist.Public)], none))) ∧
    (CreateNewGist rt exampleGist (str "tok") w).2.sent =
      w.sent ++
        [{ Method := str "POST"
           URL := str "https://api.github.com/gists"
           Header := [(str "Accept", [str "application/vnd.github+json"]),
             (str "Authorization", [str "Bearer tok"])]
           Body := some (str
             "\x7b\"description\":\"d\",\"public\":true,\"files\":\x7b\"a.txt\":\x7b\"content\":\"x\"\x7d\x7d\x7d") }] := by
  refine ⟨⟨_, ?_, rfl, ?_⟩, ?_⟩
  · rw [CreateNewGist_sent _ _ _ _ hacc, builtRequest, Marshal_gist _ _ henc]
    rfl
  · intro hd hf
    obtain ⟨body, hb, hu⟩ := UnmarshalInterface_Marshal rt.formatFloat gist hd hf .null
    rw [Marshal_gist _ _ henc] at hb
    simp only [Prod.mk.injEq, Option.some.injEq, and_true] at hb
    rw [hb]
    exact hu
  · rw [CreateNewGist_sent _ _ _ _ hacc]
    rfl

/-- Witness of C5 amended: the example gist with the token `tok`, first call
of the program; the body sent decodes to the three fields of the gist. -/
theorem CreateNewGist_request_witness :
    ∃ body,
      (CreateNewGist (replyWith 201 (str "\x7b\"id\":\"1\"\x7d")) exampleGist (str "tok")
          World.init).2.sent =
        [{ Method := str "POST"
           URL := str "https://api.github.com/gists"
           Header := [(str "Accept", [str "application/vnd.github+json"]),
             (str "Authorization", [str "Bearer tok"])]
           Body := some body }] ∧
      body = str
        "\x7b\"description\":\"d\",\"public\":true,\"files\":\x7b\"a.txt\":\x7b\"content\":\"x\"\x7d\x7d\x7d" ∧
      UnmarshalInterface body .null =
        (.object [(str "description", .string (str "d")),
          (str "files", .object [(str "a.txt", .object [(str "content", .string (str "x"))])]),
          (str "public", .bool true)], none) :=
  (CreateNewGist_request (replyWith 201 (str "\x7b\"id\":\"1\"\x7d")) exampleGist (str "tok")
    World.init rfl rfl).1.imp (fun _ h => ⟨h.1, h.2.1, h.2.2 rfl rfl⟩)

/-- C6 on the code: `GetPublicRepositories` decodes the array
`[{"id":1}]`; the next call, `GetPublicGists`, receives a body that is not
JSON and returns, with a nil error, the array the earlier call decoded. -/
theorem GetPublicGists_returns_earlier_result :
    (GetPublicRepositories
        (replyByURL (str "[\x7b\"id\":1\x7d]") (str "<html>502 Bad Gateway</html>")) World.init).1
      = .returned (.slice [.object [(str "id", .number Float64.one)]] [], none) ∧
    parse (str "<html>502 Bad Gateway</html>") = none ∧
    (GetPublicGists
        (replyByURL (str "[\x7b\"id\":1\x7d]") (str "<html>502 Bad Gateway</html>"))
        (GetPublicRepositories
          (replyByURL (str "[\x7b\"id\":1\x7d]") (str "<html>502 Bad Gateway</html>"))
          World.init).2).1
      = .returned (.slice [.object [(str "id", .number Float64.one)]] [], none) :=
  ⟨rfl, rfl, rfl⟩

/-- C7, as stated, fails: the body `[1e999]` is a valid JSON array, and what
`GetPublicRepositories` returns for it depends on the value the shared
variable held before the call: the element held before when there was one,
a nil element after program start. -/
theorem GetPublicRepositories_out_of_range_returns_held_element :
    parse (str "[1e999]") = some (.array [.number (str "1e999")]) ∧
    (GetPublicRepositories (replyWith 200 (str "[1e999]"))
        { githubResponse := .slice [.string (str "earlier")] [], sent := [] }).1
      = .returned (.slice [.string (str "earlier")] [], none) ∧
    (GetPublicRepositories (replyWith 200 (str "[1e999]")) World.init).1
      = .returned (.slice [.null] [], none) := by
  refine ⟨rfl, ?_, ?_⟩
  · rw [GetPublicRepositories_eq, GetMoreInformationFromURL_ok _ _ _ _
      { StatusCode := 200, Body := { data := str "[1e999]", err := none } } rfl rfl,
      UnmarshalSlice_out_of_range]
    rfl
  · rw [GetPublicRepositories_eq, GetMoreInformationFromURL_ok _ _ _ _
      { StatusCode := 200, Body := { data := str "[1e999]", err := none } } rfl rfl,
      UnmarshalSlice_out_of_range]
    rfl

/-- C7, amended: when `http.NewRequest` accepts the request and the client
answers with a body that is a valid JSON array none of whose elements is a
number outside the float64 range, `GetPublicRepositories` returns a nil error
and a slice whose elements are exactly the decoded elements of the array, in
order, whatever the shared variable held before (`arrayInterface`: what
`json.Unmarshal` stores for each element, a number outside the range that is
nested deeper being stored as nil).  In particular the encoding of every
well-formed sequence is decoded to that sequence.  For the body
`[{"id":1}]` the slice has one element, a map whose key `id` holds the
number 1; escapes in keys and strings are resolved. -/
theorem GetPublicRepositories_decodes_array (rt : Runtime) (w : World) (response : Response)
    (hacc : rt.accepts (str "GET") (str "https://api.github.com/repositories") = true)
    (hdo : ∀ request, rt.Do w.sent request = .ok response) :
    (∀ es : List Json, parse response.Body.data = some (.array es) →
      (∀ lit, Json.number lit ∈ es → convertNumber lit ≠ none) →
      ∃ spare, (GetPublicRepositories rt w).1
        = .returned (.slice (arrayInterface es) spare, none)) ∧
    (∀ (ff : FloatFormat) (xs : List Value),
      wellFormed ff.format maxNestingDepth (.array xs) = true →
      response.Body.data = encodeValue ff.format (.array xs) →
      ∃ spare, (GetPublicRepositories rt w).1 = .returned (.slice xs spare, none)) ∧
    (response.Body.data = str "[\x7b\"id\":1\x7d]" →
      ∃ spare, (GetPublicRepositories rt w).1
        = .returned (.slice [.object [(str "id", .number Float64.one)]] spare, none)) ∧
    (response.Body.data = str "[\x7b\"na\\u006de\":\"a\\\"b\"\x7d,\"\\u00e9\",[true,null]]" →
      ∃ spare, (GetPublicRepositories rt w).1
        = .returned (.slice [.object [(str "name", .string (str "a\"b"))],
            .string [195, 169], .array [.bool true, .null]] spare, none)) ∧
    Float64.one.toRat = 1 := by
  have hres : (GetPublicRepositories rt w).1
      = .returned ((UnmarshalSlice response.Body.data w.githubResponse).1, none) := by
    rw [GetPublicRepositories_eq, GetMoreInformationFromURL_ok _ _ _ _ response hacc (hdo _)]
  have key : ∀ es : List Json, parse response.Body.data = some (.array es) →
      (∀ lit, Json.number lit ∈ es → convertNumber lit ≠ none) →
      ∃ spare, (GetPublicRepositories rt w).1
        = .returned (.slice (arrayInterface es) spare, none) := by
    intro es hp hr
    obtain ⟨spare, hs⟩ := UnmarshalSlice_array _ es hp hr w.githubResponse
    exact ⟨spare, by rw [hres, hs]⟩
  refine ⟨key, ?_, ?_, ?_, Float64.one_toRat⟩
  · intro ff xs hwf hbody
    obtain ⟨spare, hs⟩ := UnmarshalSlice_encodeValue ff xs hwf w.githubResponse
    exact ⟨spare, by rw [hres, hbody, hs]⟩
  · intro hbody
    have hp : parse response.Body.data
        = some (.array [.object [(str "id", .number (str "1"))]]) := by
      rw [hbody]; rfl
    exact key _ hp (by intro lit h; simp at h)
  · intro hbody
    have hp : parse response.Body.data
        = some (.array [.object [(str "na\\u006de", .string (str "a\\\"b"))],
            .string (str "\\u00e9"), .array [.bool true, .null]]) := by
      rw [hbody]; rfl
    exact key _ hp (by intro lit h; simp at h)

/-- Witness of C7 amended: the body `[{"id":1}]` with status 200, in a
state whose shared variable holds two elements of an earlier call. -/
theorem GetPublicRepositories_decodes_array_witness :
    ∃ spare, (GetPublicRepositories (replyWith 200 (str "[\x7b\"id\":1\x7d]"))
        { githubResponse := .slice [.bool true, .string (str "earlier")] [], sent := [] }).1
      = .returned (.slice [.object [(str "id", .number Float64.one)]] spare, none) :=
  (GetPublicRepositories_decodes_array (replyWith 200 (str "[\x7b\"id\":1\x7d]"))
    { githubResponse := .slice [.bool true, .string (str "earlier")] [], sent := [] }
    { StatusCode := 200, Body := { data := str "[\x7b\"id\":1\x7d]", err := none } }
    rfl (fun _ => rfl)).2.2.1 rfl

/-- C8: each fixed-endpoint read operation whose request `http.NewRequest`
accepts hands exactly one request to the client, whatever the client
answers: method `GET`, no body, the fixed URL; `GetPublicRepositories` and
`GetPublicGists` send no `Authorization` header,
`GetRepositoriesForAuthenticatedUser` and `GetGistsForAuthenticatedUser` send
the caller's token. -/
theorem fixed_endpoints_send_one_get (rt : Runtime) (w : World) (token : Bytes)
    (hrepos : rt.accepts (str "GET") (str "https://api.github.com/repositories") = true)
    (hgists : rt.accepts (str "GET") (str "https://api.github.com/gists/public") = true)
    (huser : rt.accepts (str "GET") (str "https://api.github.com/user/repos?type=private") = true)
    (hmine : rt.accepts (str "GET") (str "https://api.github.com/gists") = true) :
    (GetPublicRepositories rt w).2.sent =
      w.sent ++ [{ Method := str "GET", URL := str "https://api.github.com/repositories",
                   Header := [(str "Accept", [str "application/vnd.github+json"])],
                   Body := none }] ∧
    (GetPublicGists rt w).2.sent =
      w.sent ++ [{ Method := str "GET", URL := str "https://api.github.com/gists/public",
                   Header := [(str "Accept", [str "application/vnd.github+json"])],
                   Body := none }] ∧
    (GetRepositoriesForAuthenticatedUser rt token w).2.sent =
      w.sent ++ [{ Method := str "GET",
                   URL := str "https://api.github.com/user/repos?type=private",
                   Header := (str "Accept", [str "application/vnd.github+json"]) ::
                     (if token = str "" then []
                      else [(str "Authorization", [str "Bearer " ++ token])]),
                   Body := none }] ∧
    (GetGistsForAuthenticatedUser rt token w).2.sent =
      w.sent ++ [{ Method := str "GET", URL := str "https://api.github.com/gists",
                   Header := (str "Accept", [str "application/vnd.github+json"]) ::
                     (if token = str "" then []
                      else [(str "Authorization", [str "Bearer " ++ token])]),
                   Body := none }] := by
  refine ⟨?_, ?_, ?_, ?_⟩
  · rw [GetPublicRepositories_eq, GetMoreInformationFromURL_sent _ _ _ _ hrepos]
    rfl
  · rw [GetPublicGists_eq, GetMoreInformationFromURL_sent _ _ _ _ hgists]
    rfl
  · rw [GetRepositoriesForAuthenticatedUser_eq, GetMoreInformationFromURL_sent _ _ _ _ huser]
    rfl
  · rw [GetGistsForAuthenticatedUser_eq, GetMoreInformationFromURL_sent _ _ _ _ hmine]
    rfl

/-- Witness of C8: a client that fails every request; each operation has
still sent its one request. -/
theorem fixed_endpoints_send_one_get_witness :
    (GetPublicGists (failWith connectionRefused) World.init).2.sent =
      [{ Method := str "GET", URL := str "https://api.github.com/gists/public",
         Header := [(str "Accept", [str "application/vnd.github+json"])], Body := none }] ∧
    (GetGistsForAuthenticatedUser (failWith connectionRefused) (str "tok") World.init).2.sent =
      [{ Method := str "GET", URL := str "https://api.github.com/gists",
         Header := [(str "Accept", [str "application/vnd.github+json"]),
           (str "Authorization", [str "Bearer tok"])], Body := none }] :=
  ⟨(fixed_endpoints_send_one_get (failWith connectionRefused) World.init (str "tok")
      rfl rfl rfl rfl).2.1,
   (fixed_endpoints_send_one_get (failWith connectionRefused) World.init (str "tok")
      rfl rfl rfl rfl).2.2.2⟩

/-- C9, as stated, fails: the body `{"id":1}` is valid JSON and decodes
to a map whose key `id` holds 1, and `GetMoreInformationFromURL` returns, with
a nil error, the slice the shared variable held before the call; so it does
for the array `[1e999]`, whose number no float64 holds. -/
theorem GetMoreInformationFromURL_object_returns_held_value :
    UnmarshalInterface (str "\x7b\"id\":1\x7d") .null
      = (.object [(str "id", .number Float64.one)], none) ∧
    (GetMoreInformationFromURL (replyWith 200 (str "\x7b\"id\":1\x7d"))
        (str "https://api.github.com/repos/leo-1228/Go_DApp") (str "")
        { githubResponse := .slice [.string (str "earlier")] [], sent := [] }).1
      = .returned (.slice [.string (str "earlier")] [], none) ∧
    (GetMoreInformationFromURL (replyWith 200 (str "[1e999]"))
        (str "https://api.github.com/repos/leo-1228/Go_DApp/tags") (str "")
        { githubResponse := .slice [.string (str "earlier")] [], sent := [] }).1
      = .returned (.slice [.string (str "earlier")] [], none) := by
  refine ⟨rfl, rfl, ?_⟩
  rw [GetMoreInformationFromURL_ok _ _ _ _
    { StatusCode := 200, Body := { data := str "[1e999]", err := none } } rfl rfl,
    UnmarshalSlice_out_of_range]
  rfl

/-- C9, amended: when `http.NewRequest` accepts the URL and the client
answers with a body that is a valid JSON array none of whose elements is a
number outside the float64 range, `GetMoreInformationFromURL` returns a nil
error and a slice whose elements are exactly the decoded elements of the
array, in order, whatever the shared variable held before, and the shared
variable holds that slice afterwards.  In particular the encoding of every
well-formed sequence is decoded to that sequence. -/
theorem GetMoreInformationFromURL_decodes_array (rt : Runtime) (url token : Bytes) (w : World)
    (response : Response)
    (hacc : rt.accepts (str "GET") url = true)
    (hdo : ∀ request, rt.Do w.sent request = .ok response) :
    (∀ es : List Json, parse response.Body.data = some (.array es) →
      (∀ lit, Json.number lit ∈ es → convertNumber lit ≠ none) →
      ∃ spare,
        (GetMoreInformationFromURL rt url token w).1
          = .returned (.slice (arrayInterface es) spare, none) ∧
        (GetMoreInformationFromURL rt url token w).2.githubResponse
          = .slice (arrayInterface es) spare) ∧
    (∀ (ff : FloatFormat) (xs : List Value),
      wellFormed ff.format maxNestingDepth (.array xs) = true →
      response.Body.data = encodeValue ff.format (.array xs) →
      ∃ spare,
        (GetMoreInformationFromURL rt url token w).1 = .returned (.slice xs spare, none) ∧
        (GetMoreInformationFromURL rt url token w).2.githubResponse = .slice xs spare) := by
  refine ⟨?_, ?_⟩
  · intro es hp hr
    obtain ⟨spare, hs⟩ := UnmarshalSlice_array _ es hp hr w.githubResponse
    refine ⟨spare, ?_, ?_⟩
    · rw [GetMoreInformationFromURL_ok _ _ _ _ response hacc (hdo _), hs]
    · rw [GetMoreInformationFromURL_ok _ _ _ _ response hacc (hdo _), hs]
  · intro ff xs hwf hbody
    obtain ⟨spare, hs⟩ := UnmarshalSlice_encodeValue ff xs hwf w.githubResponse
    refine ⟨spare, ?_, ?_⟩
    · rw [GetMoreInformationFromURL_ok _ _ _ _ response hacc (hdo _), hbody, hs]
    · rw [GetMoreInformationFromURL_ok _ _ _ _ response hacc (hdo _), hbody, hs]

/-- Witness of C9 amended: the body `[true,"a",1]`, which is the encoding of
the sequence of `true`, the string `a` and the number 1, in a state whose
shared variable holds one element of an earlier call. -/
theorem GetMoreInformationFromURL_decodes_array_witness :
    encodeValue stubFormat.format (.array [.bool true, .string (str "a"), .number Float64.one])
      = str "[true,\"a\",1]" ∧
    ∃ spare, (GetMoreInformationFromURL (replyWith 200 (str "[true,\"a\",1]"))
          (str "https://api.github.com/repos/leo-1228/Go_DApp/tags") (str "tok")
          { githubResponse := .slice [.string (str "earlier")] [], sent := [] }).1
        = .returned (.slice [.bool true, .string (str "a"), .number Float64.one] spare, none) ∧
      (GetMoreInformationFromURL (replyWith 200 (str "[true,\"a\",1]"))
          (str "https://api.github.com/repos/leo-1228/Go_DApp/tags") (str "tok")
          { githubResponse := .slice [.string (str "earlier")] [], sent := [] }).2.githubResponse
        = .slice [.bool true, .string (str "a"), .number Float64.one] spare :=
  ⟨rfl, (GetMoreInformationFromURL_decodes_array (replyWith 200 (str "[true,\"a\",1]"))
    (str "https://api.github.com/repos/leo-1228/Go_DApp/tags") (str "tok")
    { githubResponse := .slice [.string (str "earlier")] [], sent := [] }
    { StatusCode := 200, Body := { data := str "[true,\"a\",1]", err := none } }
    rfl (fun _ => rfl)).2 stubFormat [.bool true, .string (str "a"), .number Float64.one]
      (by decide!) rfl⟩

/-- C10: when the client answers with a body that is malformed JSON (the
scanner rejects it, `json.Unmarshal` returns a `SyntaxError`), each of the
five list operations whose request `http.NewRequest` accepts returns a nil
error together with the value the shared variable `githubResponse` held before
the call, and leaves that variable unchanged; `CreateNewGist` returns a nil
error together with the nil value of its local variable. -/
theorem decode_failure_not_surfaced (rt : Runtime) (w : World) (response : Response)
    (url token : Bytes) (gist : Gist)
    (hdo : ∀ request, rt.Do w.sent request = .ok response)
    (hbad : parse response.Body.data = none) :
    (rt.accepts (str "GET") (str "https://api.github.com/repositories") = true →
      (GetPublicRepositories rt w).1 = .returned (w.githubResponse, none) ∧
      (GetPublicRepositories rt w).2.githubResponse = w.githubResponse) ∧
    (rt.accepts (str "GET") (str "https://api.github.com/gists/public") = true →
      (GetPublicGists rt w).1 = .returned (w.githubResponse, none) ∧
      (GetPublicGists rt w).2.githubResponse = w.githubResponse) ∧
    (rt.accepts (str "GET") (str "https://api.github.com/user/repos?type=private") = true →
      (GetRepositoriesForAuthenticatedUser rt token w).1 = .returned (w.githubResponse, none) ∧
      (GetRepositoriesForAuthenticatedUser rt token w).2.githubResponse = w.githubResponse) ∧
    (rt.accepts (str "GET") (str "https://api.github.com/gists") = true →
      (GetGistsForAuthenticatedUser rt token w).1 = .returned (w.githubResponse, none) ∧
      (GetGistsForAuthenticatedUser rt token w).2.githubResponse = w.githubResponse) ∧
    (rt.accepts (str "GET") url = true →
      (GetMoreInformationFromURL rt url token w).1 = .returned (w.githubResponse, none) ∧
      (GetMoreInformationFromURL rt url token w).2.githubResponse = w.githubResponse) ∧
    (rt.accepts (str "POST") (str "https://api.github.com/gists") = true →
      (CreateNewGist rt gist token w).1 = .returned (.null, none)) := by
  have key : ∀ u t : Bytes, rt.accepts (str "GET") u = true →
      (GetMoreInformationFromURL rt u t w).1 = .returned (w.githubResponse, none) ∧
      (GetMoreInformationFromURL rt u t w).2.githubResponse = w.githubResponse := by
    intro u t h
    rw [GetMoreInformationFromURL_ok _ _ _ _ response h (hdo _),
      UnmarshalSlice_of_syntaxError _ hbad]
    exact ⟨rfl, rfl⟩
  refine ⟨?_, ?_, ?_, ?_, key url token, ?_⟩
  · rw [GetPublicRepositories_eq]; exact key _ _
  · rw [GetPublicGists_eq]; exact key _ _
  · rw [GetRepositoriesForAuthenticatedUser_eq]; exact key _ _
  · rw [GetGistsForAuthenticatedUser_eq]; exact key _ _
  · intro h
    rw [CreateNewGist_ok _ _ _ _ response h (hdo _), UnmarshalInterface_of_syntaxError _ hbad]

/-- Witness of C10: a truncated JSON body, in a state whose shared variable
holds one element of an earlier call. -/
theorem decode_failure_not_surfaced_witness :
    (GetPublicGists (replyWith 200 (str "[\x7b\"id\":"))
        { githubResponse := .slice [.string (str "earlier")] [], sent := [] }).1
      = .returned (.slice [.string (str "earlier")] [], none) ∧
    (CreateNewGist (replyWith 200 (str "[\x7b\"id\":")) exampleGist (str "tok")
        { githubResponse := .slice [.string (str "earlier")] [], sent := [] }).1
      = .returned (.null, none) :=
  ⟨((decode_failure_not_surfaced (replyWith 200 (str "[\x7b\"id\":"))
      { githubResponse := .slice [.string (str "earlier")] [], sent := [] }
      { StatusCode := 200, Body := { data := str "[\x7b\"id\":", err := none } }
      (str "https://api.github.com/gists/1") (str "tok") exampleGist
      (fun _ => rfl) rfl).2.1 rfl).1,
   (decode_failure_not_surfaced (replyWith 200 (str "[\x7b\"id\":"))
      { githubResponse := .slice [.string (str "earlier")] [], sent := [] }
      { StatusCode := 200, Body := { data := str "[\x7b\"id\":", err := none } }
      (str "https://api.github.com/gists/1") (str "tok") exampleGist
      (fun _ => rfl) rfl).2.2.2.2.2 rfl⟩

end GoDApp
